import Mathlib

/-!
Verification of the ResumeRanker two-stage ranking pipeline.

This file gives a shallow embedding of the core of the repository:

* `src/utils/helpers.py`           — `safe_get_nested`, `safe_join`
* `src/ranking/text_formatting.py` — `format_job_description`, `format_resume`
* `src/ranking/prompts.py`         — the two signal-text templates
* `src/ranking/bi_encoder.py`      — `bi_encoder_resume_filtering` (Stage 1)
* `src/ranking/llm_judge.py`       — `llm_as_a_judge`
* `src/ranking/cross_encoder_llm.py` — `score_and_rank` (Stage 2)

Python dynamic values are modelled by the inductive type `PyVal`; JSON-style
numbers are modelled exactly as rationals, similarity scores as rationals and
Stage-2 scores as real numbers (the sigmoid rescaling uses `Real.exp`).
Operations that can raise a `TypeError` in Python are `Option`-valued, with
`Option.none` standing for a raised exception.  The external capabilities
(embedder similarity, cross-encoder `predict`, OpenAI client) are passed in as
function arguments, matching the interface boundary of the specification.
-/

/-- Model of a Python runtime value as manipulated by the pipeline:
`None`, booleans, numbers (ints and floats, modelled exactly as rationals),
strings, lists, and dicts (as ordered key-value pair lists, keys unique by
construction whenever the dict is built by Python dict operations). -/
inductive PyVal where
  | none : PyVal
  | bool (b : Bool) : PyVal
  | num (q : ℚ) : PyVal
  | str (s : String) : PyVal
  | list (xs : List PyVal) : PyVal
  | dict (es : List (PyVal × PyVal)) : PyVal

mutual

/-- Structural equality on `PyVal`, modelling Python `==` on the values the
pipeline compares (identity keys and dict members). -/
def PyVal.beq : PyVal → PyVal → Bool
  | .none, .none => true
  | .bool a, .bool b => a == b
  | .num a, .num b => a == b
  | .str a, .str b => a == b
  | .list xs, .list ys => PyVal.listBeq xs ys
  | .dict es, .dict fs => PyVal.pairsBeq es fs
  | _, _ => false

/-- Element-wise equality of `PyVal` lists. -/
def PyVal.listBeq : List PyVal → List PyVal → Bool
  | [], [] => true
  | x :: xs, y :: ys => PyVal.beq x y && PyVal.listBeq xs ys
  | _, _ => false

/-- Pair-wise equality of `PyVal` pair lists. -/
def PyVal.pairsBeq : List (PyVal × PyVal) → List (PyVal × PyVal) → Bool
  | [], [] => true
  | (k, v) :: xs, (k', v') :: ys => PyVal.beq k k' && PyVal.beq v v' && PyVal.pairsBeq xs ys
  | _, _ => false

end

mutual

def PyVal.beq_iff : (a b : PyVal) → (PyVal.beq a b = true ↔ a = b)
  | .none, .none => by simp [PyVal.beq]
  | .bool _, .bool _ => by simp [PyVal.beq]
  | .num _, .num _ => by simp [PyVal.beq]
  | .str _, .str _ => by simp [PyVal.beq]
  | .list xs, .list ys => by simp [PyVal.beq, PyVal.listBeq_iff xs ys]
  | .dict es, .dict fs => by simp [PyVal.beq, PyVal.pairsBeq_iff es fs]
  | .none, .bool _ | .none, .num _ | .none, .str _ | .none, .list _ | .none, .dict _
  | .bool _, .none | .bool _, .num _ | .bool _, .str _ | .bool _, .list _ | .bool _, .dict _
  | .num _, .none | .num _, .bool _ | .num _, .str _ | .num _, .list _ | .num _, .dict _
  | .str _, .none | .str _, .bool _ | .str _, .num _ | .str _, .list _ | .str _, .dict _
  | .list _, .none | .list _, .bool _ | .list _, .num _ | .list _, .str _ | .list _, .dict _
  | .dict _, .none | .dict _, .bool _ | .dict _, .num _ | .dict _, .str _ | .dict _, .list _ => by
      simp [PyVal.beq]

def PyVal.listBeq_iff : (xs ys : List PyVal) → (PyVal.listBeq xs ys = true ↔ xs = ys)
  | [], [] => by simp [PyVal.listBeq]
  | [], _ :: _ => by simp [PyVal.listBeq]
  | _ :: _, [] => by simp [PyVal.listBeq]
  | x :: xs, y :: ys => by
      simp [PyVal.listBeq, PyVal.beq_iff x y, PyVal.listBeq_iff xs ys]

def PyVal.pairsBeq_iff : (xs ys : List (PyVal × PyVal)) → (PyVal.pairsBeq xs ys = true ↔ xs = ys)
  | [], [] => by simp [PyVal.pairsBeq]
  | [], _ :: _ => by simp [PyVal.pairsBeq]
  | _ :: _, [] => by simp [PyVal.pairsBeq]
  | (k, v) :: xs, (k', v') :: ys => by
      simp [PyVal.pairsBeq, PyVal.beq_iff k k', PyVal.beq_iff v v',
        PyVal.pairsBeq_iff xs ys, Prod.ext_iff, and_assoc]

end

instance : DecidableEq PyVal := fun a b =>
  decidable_of_iff (PyVal.beq a b = true) (PyVal.beq_iff a b)

/-- Python truthiness of a value (`bool(v)`): `None`, `False`, zero, the empty
string, the empty list and the empty dict are falsy. -/
def PyVal.truthy : PyVal → Bool
  | .none => false
  | .bool b => b
  | .num q => decide (q ≠ 0)
  | .str s => decide (s ≠ "")
  | .list xs => decide (xs ≠ [])
  | .dict es => decide (es ≠ [])

/-- Dict lookup `d[k]` / membership test, on the pair-list model.  Dicts built
by Python operations have unique keys, so first match equals the stored value. -/
def pyLookup : List (PyVal × PyVal) → PyVal → Option PyVal
  | [], _ => Option.none
  | (k', v) :: rest, k => if k' = k then some v else pyLookup rest k

/-- Dict update `d[k] = v`: overwrite the existing binding for `k`, or append a
new binding (Python dicts keep insertion order). -/
def dictSet (es : List (PyVal × PyVal)) (k v : PyVal) : List (PyVal × PyVal) :=
  if es.any (fun kv => kv.1 = k) then
    es.map (fun kv => if kv.1 = k then (k, v) else kv)
  else
    es ++ [(k, v)]

/-- Python iteration over a value (`for x in v` / `map(f, v)`): lists yield
their elements, strings their one-character substrings, dicts their keys;
iterating any other value raises `TypeError`, modelled by `Option.none`. -/
def pyIter : PyVal → Option (List PyVal)
  | .list xs => some xs
  | .str s => some (s.data.map (fun c => PyVal.str (String.mk [c])))
  | .dict es => some (es.map (fun kv => kv.1))
  | _ => Option.none

/-- Rendering of the exact rational model of a Python number. -/
def pyStrQ (q : ℚ) : String :=
  if q.den = 1 then toString q.num else toString q.num ++ "/" ++ toString q.den

mutual

/-- Python `repr(v)`, used by `str` on elements of containers. -/
def pyRepr : PyVal → String
  | .none => "None"
  | .bool b => if b then "True" else "False"
  | .num q => pyStrQ q
  | .str s => "\x27" ++ s ++ "\x27"
  | .list xs => "[" ++ ", ".intercalate (pyReprList xs) ++ "]"
  | .dict es => "\x7b" ++ ", ".intercalate (pyReprPairs es) ++ "\x7d"

/-- `repr` of every element of a list. -/
def pyReprList : List PyVal → List String
  | [] => []
  | x :: xs => pyRepr x :: pyReprList xs

/-- `repr(k) ++ ": " ++ repr(v)` of every entry of a dict. -/
def pyReprPairs : List (PyVal × PyVal) → List String
  | [] => []
  | (k, v) :: es => (pyRepr k ++ ": " ++ pyRepr v) :: pyReprPairs es

end

/-- Python `str(v)`: the identity on strings, `repr`-style rendering of
containers, and the usual spellings of `None`, booleans and numbers. -/
def pyStr : PyVal → String
  | .str s => s
  | v => pyRepr v

/-- Python `+` restricted to the shapes the serializer adds: list
concatenation, string concatenation and numeric addition; any other operand
combination raises `TypeError` (`Option.none`). -/
def pyAdd : PyVal → PyVal → Option PyVal
  | .list xs, .list ys => some (.list (xs ++ ys))
  | .str a, .str b => some (.str (a ++ b))
  | .num a, .num b => some (.num (a + b))
  | _, _ => Option.none

/-- Python `" ".join(v)`: iterate `v` and require every element to be a
string, otherwise `TypeError`. -/
def pyJoinSpace (v : PyVal) : Option String := do
  let items ← pyIter v
  let strs ← items.mapM (fun x => match x with
    | .str s => some s
    | _ => Option.none)
  pure (" ".intercalate strs)

/-- `src/utils/helpers.py` `safe_get_nested(dictionary, *keys, default=None)`:
walk the key path, returning `default` as soon as the current value is not a
dict or lacks the key; at the end return `current or default` (Python `or`,
i.e. `default` whenever the final value is falsy). -/
def safe_get_nested (dictionary : PyVal) (keys : List String) (default : PyVal) : PyVal :=
  match keys with
  | [] => if dictionary.truthy then dictionary else default
  | k :: ks =>
      match dictionary with
      | .dict es =>
          match pyLookup es (.str k) with
          | some v => safe_get_nested v ks default
          | Option.none => default
      | _ => default

/-- `src/utils/helpers.py` `safe_join(items, default=None)`:
`items = items or default or []`, then `" ".join(map(str, items))`. -/
def safe_join (items : PyVal) (default : PyVal) : Option String := do
  let items := if items.truthy then items else if default.truthy then default else .list []
  let elems ← pyIter items
  pure (" ".intercalate (elems.map pyStr))

/-- Insert into a descending-sorted list, going before the first element whose
key is `≤` the inserted key; the element being inserted arrived earlier in the
input than everything in the list, so this keeps equal keys in input order. -/
def insertDesc {α K : Type} [LinearOrder K] (key : α → K) (a : α) : List α → List α
  | [] => [a]
  | b :: bs => if key b ≤ key a then a :: b :: bs else b :: insertDesc key a bs

/-- Stable sort descending by key: the model of Python
`sorted(l, key=key, reverse=True)`, which sorts by key descending and keeps
elements with equal keys in their original order. -/
def pySortDesc {α K : Type} [LinearOrder K] (key : α → K) : List α → List α
  | [] => []
  | x :: xs => insertDesc key x (pySortDesc key xs)

/-- `src/ranking/prompts.py` `resume_signal_text`, with its placeholders as
arguments: the fixed-layout candidate signal text. -/
def resume_signal_text (professional_summary skills job_roles_and_achivements projects certificates : String) : String :=
  "\nProfessional Summary: \n" ++ professional_summary ++
  "\n\nSkills: \n" ++ skills ++
  "\n\nJob Roles and Achievements: \n" ++ job_roles_and_achivements ++
  "\n\nProjects:\n" ++ projects ++
  "\n\nCertifications:\n" ++ certificates ++ "\n"

/-- `src/ranking/prompts.py` `job_signal_text`, with its placeholders as
arguments: the fixed-layout job signal text. -/
def job_signal_text (job_title seniority key_responsibilities required_skills required_tools preferred_skills preferred_tools required_experience domain_knowledge : String) : String :=
  "\nJob Title: \n" ++ job_title ++
  "\n\nSeniority: \n" ++ seniority ++
  "\n\nKey Responsibilities: \n" ++ key_responsibilities ++
  "\n\nRequired Skills:\n" ++ required_skills ++
  "\n\nRequired Tools:\n" ++ required_tools ++
  "\n\nPreferred Skills: \n" ++ preferred_skills ++
  "\n\nPreferred Tools:\n" ++ preferred_tools ++
  "\n\nRequired Experience:\n" ++ required_experience ++
  "\n\nDomain Knowledge:\n" ++ domain_knowledge ++ "\n"

/-- `src/ranking/text_formatting.py` `format_job_description`: extract the four
field groups with `safe_get_nested`, space-join the list-valued fields with
`safe_join`, and fill the `job_signal_text` template.  `Option.none` models a
raised `TypeError` (only possible when a present, truthy field has a
non-iterable shape). -/
def format_job_description (structured_job_description : PyVal) : Option String := do
  let job_context := safe_get_nested structured_job_description ["job_context"] (.dict [])
  let role_description := safe_get_nested structured_job_description ["role_description"] (.dict [])
  let hard_requirements := safe_get_nested structured_job_description ["hard_requirements"] (.dict [])
  let preferred_quals := safe_get_nested structured_job_description ["preferred_qualifications"] (.dict [])
  let key_responsibilities ← safe_join (safe_get_nested role_description ["key_responsibilities"] (.list [])) .none
  let required_skills ← safe_join (safe_get_nested hard_requirements ["must_have_skills"] (.list [])) .none
  let required_tools ← safe_join (safe_get_nested hard_requirements ["must_have_tools"] (.list [])) .none
  let preferred_skills ← safe_join (safe_get_nested preferred_quals ["preferred_skills"] (.list [])) .none
  let preferred_tools ← safe_join (safe_get_nested preferred_quals ["preferred_tools"] (.list [])) .none
  let required_experience ← safe_join (safe_get_nested hard_requirements ["required_experience_type"] (.list [])) .none
  let domain_knowledge ← safe_join (safe_get_nested role_description ["domain_knowledge"] (.list [])) .none
  pure (job_signal_text
    (pyStr (safe_get_nested job_context ["job_title"] (.str "")))
    (pyStr (safe_get_nested job_context ["seniority_level"] (.str "")))
    key_responsibilities required_skills required_tools
    preferred_skills preferred_tools required_experience domain_knowledge)

/-- `src/ranking/text_formatting.py` `format_resume`: concatenate the three
skill sub-lists, render one line per work-experience entry
(`"<role> at <company>: <achievements>"`), one line per project
(`"<name>: <description>"`), and fill the `resume_signal_text` template.
`Option.none` models a raised `TypeError`. -/
def format_resume (candidate_data : PyVal) : Option String := do
  let skills_section := safe_get_nested candidate_data ["skills_section"] (.dict [])
  let pl := safe_get_nested skills_section ["programming_languages"] (.list [])
  let fl := safe_get_nested skills_section ["frameworks_and_libraries"] (.list [])
  let pt := safe_get_nested skills_section ["platforms_and_tools"] (.list [])
  let all_skills ← pyAdd (← pyAdd pl fl) pt
  let work_experience := safe_get_nested candidate_data ["work_experience"] (.list [])
  let jobs ← pyIter work_experience
  let job_roles ← jobs.mapM (fun job => do
    let company := safe_get_nested job ["company"] (.str "")
    let role := safe_get_nested job ["job_title"] (.str "")
    let achievements := safe_get_nested job ["achievements"] (.list [])
    let joined ← pyJoinSpace achievements
    pure (PyVal.str (pyStr role ++ " at " ++ pyStr company ++ ": " ++ joined)))
  let projects := safe_get_nested candidate_data ["projects"] (.list [])
  let projs ← pyIter projects
  let project_texts ← projs.mapM (fun proj => do
    let name := safe_get_nested proj ["project_name"] (.str "")
    let desc := safe_get_nested proj ["description"] (.str "")
    pure (PyVal.str (pyStr name ++ ": " ++ pyStr desc)))
  let skills ← safe_join all_skills .none
  let job_roles_text ← safe_join (.list job_roles) .none
  let projects_text ← safe_join (.list project_texts) .none
  let certificates ← safe_join (safe_get_nested candidate_data ["certifications"] (.list [])) .none
  pure (resume_signal_text
    (pyStr (safe_get_nested candidate_data ["professional_summary"] (.str "")))
    skills job_roles_text projects_text certificates)

/-- A Stage-1 ranking entry, the dict
`{"candidate_name": ..., "rank": ...}` built by `bi_encoder_resume_filtering`;
the rank is the cosine-similarity score (modelled exactly as a rational). -/
structure RankEntry where
  candidate_name : PyVal
  rank : ℚ
deriving DecidableEq

/-- The identity recorded by Stage 1 for a candidate:
`safe_get_nested(candidate_data, "contact_info", "name", default="Unknown Candidate")`. -/
def stage1_name (candidate_data : PyVal) : PyVal :=
  safe_get_nested candidate_data ["contact_info", "name"] (.str "Unknown Candidate")

/-- The per-candidate loop body of `bi_encoder_resume_filtering`
(`src/ranking/bi_encoder.py`): serialize the job once, then serialize each
resume and score it against the job text.  The external bi-encoder capability
(embedding both texts and taking cosine similarity) is the argument `sim`. -/
def stage1_entries (structured_job_description : PyVal) (structured_candidate_resumes : List PyVal)
    (sim : String → String → ℚ) : Option (List RankEntry) := do
  let job_des_text ← format_job_description structured_job_description
  structured_candidate_resumes.mapM (fun candidate_data => do
    let resume_text ← format_resume candidate_data
    pure { candidate_name := stage1_name candidate_data,
           rank := sim job_des_text resume_text : RankEntry })

/-- `src/ranking/bi_encoder.py` `bi_encoder_resume_filtering`: build one entry
per resume, then `sorted(results, key=lambda x: x["rank"], reverse=True)`. -/
def bi_encoder_resume_filtering (structured_job_description : PyVal)
    (structured_candidate_resumes : List PyVal) (sim : String → String → ℚ) :
    Option (List RankEntry) := do
  let results ← stage1_entries structured_job_description structured_candidate_resumes sim
  pure (pySortDesc RankEntry.rank results)

/-- A Stage-2 result, the dict built by `score_and_rank`:
candidate name, LLM judge score, rescaled cross-encoder score, weighted
combined score, and the judge's result dict (`llm_analysis`). -/
structure FusionEntry where
  candidate_name : PyVal
  llm_score : ℝ
  cross_encoder_score : ℝ
  combined_score : ℝ
  llm_analysis : List (PyVal × PyVal)

/-- Python list slicing `l[:n]` for an `int` `n`: the first `n` elements when
`n ≥ 0`; for negative `n`, all but the last `|n|` elements (clamped at zero). -/
def pySliceTo {α : Type} (n : Int) (l : List α) : List α :=
  if 0 ≤ n then l.take n.toNat else l.take (l.length - (-n).toNat)

/-- The identity key used when building Stage 2's record map:
`safe_get_nested(c, "contact_info", "name")`, whose default is `None`. -/
def stage2_record_name (c : PyVal) : PyVal :=
  safe_get_nested c ["contact_info", "name"] .none

/-- The dict comprehension
`{safe_get_nested(c, "contact_info", "name"): c for c in structured_resumes}`:
later resumes overwrite earlier ones with the same name.  (Hashability of the
key is not modelled; every schema-conforming name is a string.) -/
def candidate_data_by_name (structured_resumes : List PyVal) : List (PyVal × PyVal) :=
  structured_resumes.foldl (fun acc c => dictSet acc (stage2_record_name c) c) []

/-- `src/ranking/llm_judge.py` `llm_as_a_judge`: call the OpenAI client and
parse its JSON output (a dict, per the `LLMJudgment` schema); any exception in
the `try` block yields the empty dict.  The external client — prompt
construction, API call and JSON parsing — is the argument `client`, with
`Option.none` standing for a raised exception. -/
def llm_as_a_judge (client : PyVal → PyVal → Option (List (PyVal × PyVal)))
    (job_requirements resume_info : PyVal) : List (PyVal × PyVal) :=
  match client job_requirements resume_info with
  | some d => d
  | Option.none => []

/-- The dict `{"candidate_name": name, **llm_judgement}` appended to
`llm_results`: start from the name binding and merge the judgment entries,
later bindings overwriting earlier ones. -/
def judged_result (name : PyVal) (llm_judgement : List (PyVal × PyVal)) : List (PyVal × PyVal) :=
  llm_judgement.foldl (fun d kv => dictSet d kv.1 kv.2) [(.str "candidate_name", name)]

/-- The sigmoid rescaling in `score_and_rank`:
`score = (1 / (1 + math.exp(-raw_score))) * 10.0`. -/
noncomputable def cross_rescale (raw_score : ℝ) : ℝ :=
  (1 / (1 + Real.exp (-raw_score))) * 10

/-- The first loop of `score_and_rank`: for each top candidate name that has a
record in `byName`, append the judge's (merged) result dict to `llm_results`
and the rescaled cross-encoder score to `cross_encoder_scores`; names with no
record are skipped by this loop.  `predict` is the external cross-encoder. -/
noncomputable def stage2_scores (client : PyVal → PyVal → Option (List (PyVal × PyVal)))
    (structured_job_description : PyVal) (job_text : String)
    (byName : List (PyVal × PyVal)) (predict : String → String → ℝ) :
    List PyVal → Option (List (List (PyVal × PyVal)) × List (PyVal × ℝ))
  | [] => some ([], [])
  | name :: rest =>
      match pyLookup byName name with
      | some candidate_data => do
          let llm_judgement := llm_as_a_judge client structured_job_description candidate_data
          let resume_text ← format_resume candidate_data
          let score := cross_rescale (predict job_text resume_text)
          let (ls, cs) ← stage2_scores client structured_job_description job_text byName predict rest
          pure (judged_result name llm_judgement :: ls, (name, score) :: cs)
      | Option.none => stage2_scores client structured_job_description job_text byName predict rest

/-- Python multiplication of a dict-stored score by a float weight: numbers
(and booleans, which are ints) convert; anything else raises `TypeError`. -/
noncomputable def pyNumToReal : PyVal → Option ℝ
  | .num q => some (q : ℝ)
  | .bool b => some (if b then 1 else 0)
  | _ => Option.none

/-- The second loop of `score_and_rank`: for every top candidate name, find its
judge result (default `{}`) and its cross-encoder score (default `0`), read
`final_score` (default `0`), and combine with the caller-supplied weights:
`combined_score = llm_score * llm_weight + cross_score * cross_encoder_weight`. -/
noncomputable def combine_one (llm_weight cross_encoder_weight : ℝ)
    (llm_results : List (List (PyVal × PyVal))) (cross_encoder_scores : List (PyVal × ℝ))
    (name : PyVal) : Option FusionEntry := do
  let llm_result := ((llm_results.find?
    (fun r => decide ((pyLookup r (.str "candidate_name")).getD .none = name))).getD [])
  let cross_result := cross_encoder_scores.find? (fun s => decide (s.1 = name))
  let llm_score ← pyNumToReal ((pyLookup llm_result (.str "final_score")).getD (.num 0))
  let cross_score := (cross_result.map Prod.snd).getD 0
  pure { candidate_name := name, llm_score := llm_score, cross_encoder_score := cross_score,
         combined_score := llm_score * llm_weight + cross_score * cross_encoder_weight,
         llm_analysis := llm_result : FusionEntry }

/-- Iterate `combine_one` over all top candidate names in order. -/
noncomputable def combine_results (llm_weight cross_encoder_weight : ℝ)
    (llm_results : List (List (PyVal × PyVal))) (cross_encoder_scores : List (PyVal × ℝ)) :
    List PyVal → Option (List FusionEntry) :=
  List.mapM (combine_one llm_weight cross_encoder_weight llm_results cross_encoder_scores)

/-- `src/ranking/cross_encoder_llm.py` `score_and_rank`: slice the first
`top_n` entries of the Stage-1 ranking, build the name-to-record map, run the
two scoring loops, and return the combined entries
`sorted(key=lambda x: x["combined_score"], reverse=True)`. -/
noncomputable def score_and_rank (client : PyVal → PyVal → Option (List (PyVal × PyVal)))
    (bi_encoder_ranking : List RankEntry) (structured_resumes : List PyVal)
    (structured_job_description : PyVal) (predict : String → String → ℝ)
    (top_n : Int) (llm_weight cross_encoder_weight : ℝ) : Option (List FusionEntry) := do
  let top_candidates := pySliceTo top_n bi_encoder_ranking
  let top_candidate_names := top_candidates.map RankEntry.candidate_name
  let byName := candidate_data_by_name structured_resumes
  let job_text ← format_job_description structured_job_description
  let (llm_results, cross_encoder_scores) ←
    stage2_scores client structured_job_description job_text byName predict top_candidate_names
  let combined_results ←
    combine_results llm_weight cross_encoder_weight llm_results cross_encoder_scores top_candidate_names
  pure (pySortDesc FusionEntry.combined_score combined_results)

/-- The value is a Python list. -/
def isList : PyVal → Bool
  | .list _ => true
  | _ => false

/-- The value is a Python list whose elements are all strings. -/
def isStrList : PyVal → Bool
  | .list xs => xs.all (fun x => match x with | .str _ => true | _ => false)
  | _ => false

/-- A candidate record is shaped for serialization when every field the
serializer iterates or concatenates has its schema type wherever it is present
and truthy; fields that are missing, `None` or empty are always allowed (they
resolve to the serializer defaults). -/
def resumeShaped (c : PyVal) : Bool :=
  let ss := safe_get_nested c ["skills_section"] (.dict [])
  isList (safe_get_nested ss ["programming_languages"] (.list [])) &&
  isList (safe_get_nested ss ["frameworks_and_libraries"] (.list [])) &&
  isList (safe_get_nested ss ["platforms_and_tools"] (.list [])) &&
  (match safe_get_nested c ["work_experience"] (.list []) with
   | .list jobs => jobs.all (fun job => isStrList (safe_get_nested job ["achievements"] (.list [])))
   | _ => false) &&
  isList (safe_get_nested c ["projects"] (.list [])) &&
  isList (safe_get_nested c ["certifications"] (.list []))

/-- A job specification is shaped for serialization when every space-joined
field is a list wherever it is present and truthy. -/
def jobShaped (j : PyVal) : Bool :=
  let rd := safe_get_nested j ["role_description"] (.dict [])
  let hr := safe_get_nested j ["hard_requirements"] (.dict [])
  let pq := safe_get_nested j ["preferred_qualifications"] (.dict [])
  isList (safe_get_nested rd ["key_responsibilities"] (.list [])) &&
  isList (safe_get_nested rd ["domain_knowledge"] (.list [])) &&
  isList (safe_get_nested hr ["must_have_skills"] (.list [])) &&
  isList (safe_get_nested hr ["must_have_tools"] (.list [])) &&
  isList (safe_get_nested hr ["required_experience_type"] (.list [])) &&
  isList (safe_get_nested pq ["preferred_skills"] (.list [])) &&
  isList (safe_get_nested pq ["preferred_tools"] (.list []))

/-- The candidate record has no usable identity: `contact_info` is absent, or
`contact_info.name` is absent, `None`, or the empty string. -/
def nameMissingNullOrEmpty (c : PyVal) : Bool :=
  match c with
  | .dict es =>
      match pyLookup es (.str "contact_info") with
      | some (.dict cs) =>
          match pyLookup cs (.str "name") with
          | Option.none => true
          | some .none => true
          | some (.str s) => decide (s = "")
          | some _ => false
      | Option.none => true
      | some _ => false
  | _ => false


/-- The job signal text of a record with every field missing. -/
def emptyJobText : String :=
  "\nJob Title: \n\n\nSeniority: \n\n\nKey Responsibilities: \n\n\nRequired Skills:\n\n\nRequired Tools:\n\n\nPreferred Skills: \n\n\nPreferred Tools:\n\n\nRequired Experience:\n\n\nDomain Knowledge:\n\n"

/-- The resume signal text of a record with every optional field missing or
empty: all placeholders resolve to the empty string. -/
def emptyResumeText : String :=
  "\nProfessional Summary: \n\n\nSkills: \n\n\nJob Roles and Achievements: \n\n\nProjects:\n\n\nCertifications:\n\n"

/-- A minimal candidate record named Alice. -/
def candAlice : PyVal :=
  .dict [(.str "contact_info", .dict [(.str "name", .str "Alice")])]

/-- A minimal candidate record named Bob. -/
def candBob : PyVal :=
  .dict [(.str "contact_info", .dict [(.str "name", .str "Bob")])]

/-- A minimal candidate record named Carol. -/
def candCarol : PyVal :=
  .dict [(.str "contact_info", .dict [(.str "name", .str "Carol")])]

/-- A candidate record with an explicitly empty skills section and no
work-experience field at all. -/
def candEmptySkills : PyVal :=
  .dict [(.str "contact_info", .dict [(.str "name", .str "Dana")]),
         (.str "skills_section",
          .dict [(.str "programming_languages", .list []),
                 (.str "frameworks_and_libraries", .list []),
                 (.str "platforms_and_tools", .list [])])]


/-- A judge client capability that always fails (every call raises, so
`llm_as_a_judge` returns the empty dict). -/
def clientNone : PyVal → PyVal → Option (List (PyVal × PyVal)) := fun _ _ => Option.none

/-- A judge client capability that always returns the judgment dict
`{"final_score": 8}`. -/
def clientScore8 : PyVal → PyVal → Option (List (PyVal × PyVal)) :=
  fun _ _ => some [(.str "final_score", .num 8)]

/-- A cross-encoder capability returning the constant raw score `log (3/2)`,
whose sigmoid rescaling is exactly `6`. -/
noncomputable def predictLog32 : String → String → ℝ := fun _ _ => Real.log (3 / 2)

/-- A cross-encoder capability returning the constant raw score `0`, whose
sigmoid rescaling is exactly `5`. -/
noncomputable def predictZero : String → String → ℝ := fun _ _ => 0

/-- A bi-encoder similarity capability returning the constant score `0`. -/
def simZero : String → String → ℚ := fun _ _ => 0

/-- A judge client capability that fails exactly on Bob's record and returns
`{"final_score": 8}` for everyone else. -/
def clientFailBob : PyVal → PyVal → Option (List (PyVal × PyVal)) :=
  fun _ r => if r = candBob then Option.none else some [(.str "final_score", .num 8)]


theorem insertDesc_perm {α K : Type} [LinearOrder K] (key : α → K) (a : α) (l : List α) :
    List.Perm (insertDesc key a l) (a :: l) := by
  induction l with
  | nil => simp [insertDesc]
  | cons b bs ih =>
      simp only [insertDesc]
      split
      · exact List.Perm.refl _
      · exact (ih.cons b).trans (List.Perm.swap a b bs)

theorem pySortDesc_perm {α K : Type} [LinearOrder K] (key : α → K) (l : List α) :
    List.Perm (pySortDesc key l) l := by
  induction l with
  | nil => simp [pySortDesc]
  | cons x xs ih => exact (insertDesc_perm key x _).trans (ih.cons x)

theorem pySortDesc_length {α K : Type} [LinearOrder K] (key : α → K) (l : List α) :
    (pySortDesc key l).length = l.length :=
  (pySortDesc_perm key l).length_eq

theorem pySortDesc_mem {α K : Type} [LinearOrder K] (key : α → K) (l : List α) (x : α) :
    x ∈ pySortDesc key l ↔ x ∈ l :=
  (pySortDesc_perm key l).mem_iff

theorem insertDesc_pairwise {α K : Type} [LinearOrder K] (key : α → K) (a : α) (l : List α)
    (h : l.Pairwise (fun x y => key y ≤ key x)) :
    (insertDesc key a l).Pairwise (fun x y => key y ≤ key x) := by
  induction l with
  | nil => simp [insertDesc]
  | cons b bs ih =>
      simp only [insertDesc]
      rcases List.pairwise_cons.mp h with ⟨hb, hbs⟩
      split
      · rename_i hle
        refine List.pairwise_cons.mpr ⟨?_, h⟩
        intro y hy
        rcases List.mem_cons.mp hy with hy | hy
        · subst hy; exact hle
        · exact le_trans (hb _ hy) hle
      · rename_i hgt
        refine List.pairwise_cons.mpr ⟨?_, ih hbs⟩
        intro y hy
        have hy' := (insertDesc_perm key a bs).mem_iff.mp hy
        rcases List.mem_cons.mp hy' with hy' | hy'
        · subst hy'; exact le_of_lt (lt_of_not_le hgt)
        · exact hb _ hy'

theorem pySortDesc_pairwise {α K : Type} [LinearOrder K] (key : α → K) (l : List α) :
    (pySortDesc key l).Pairwise (fun x y => key y ≤ key x) := by
  induction l with
  | nil => simp [pySortDesc]
  | cons x xs ih => exact insertDesc_pairwise key x _ ih

theorem insertDesc_filter_key {α K : Type} [LinearOrder K] (key : α → K) (a : α) (l : List α)
    (q : K) (h : l.Pairwise (fun x y => key y ≤ key x)) :
    (insertDesc key a l).filter (fun x => decide (key x = q)) =
      if key a = q then a :: l.filter (fun x => decide (key x = q))
      else l.filter (fun x => decide (key x = q)) := by
  induction l with
  | nil => by_cases haq : key a = q <;> simp [insertDesc, List.filter_cons, haq]
  | cons b bs ih =>
      rcases List.pairwise_cons.mp h with ⟨hb, hbs⟩
      simp only [insertDesc]
      split
      · rename_i hle
        by_cases haq : key a = q <;> simp [List.filter_cons, haq]
      · rename_i hgt
        by_cases haq : key a = q
        · by_cases hbq : key b = q
          · exfalso; exact hgt (le_of_eq (hbq.trans haq.symm))
          · simp [List.filter_cons, hbq, haq, ih hbs]
        · by_cases hbq : key b = q <;> simp [List.filter_cons, hbq, haq, ih hbs]

/-- Stability of `pySortDesc`: for every key value `q` the sublist of elements
with key `q` is unchanged, i.e. ties are broken by original input order. -/
theorem pySortDesc_filter_key {α K : Type} [LinearOrder K] (key : α → K) (l : List α) (q : K) :
    (pySortDesc key l).filter (fun x => decide (key x = q)) =
      l.filter (fun x => decide (key x = q)) := by
  induction l with
  | nil => simp [pySortDesc]
  | cons x xs ih =>
      simp only [pySortDesc]
      rw [insertDesc_filter_key key x _ q (pySortDesc_pairwise key xs)]
      by_cases hq : key x = q <;> simp [List.filter_cons, hq, ih]

theorem mapM_option_forall₂ {α β : Type} (f : α → Option β) :
    ∀ (l : List α) (res : List β), l.mapM f = some res →
      List.Forall₂ (fun a b => f a = some b) l res := by
  intro l
  induction l with
  | nil =>
      intro res h
      simp only [List.mapM_nil, pure, Option.some.injEq] at h
      subst h
      exact List.Forall₂.nil
  | cons a as ih =>
      intro res h
      simp only [List.mapM_cons] at h
      cases hfa : f a with
      | none => rw [hfa] at h; simp at h
      | some b =>
          rw [hfa] at h
          cases hrest : as.mapM f with
          | none => rw [hrest] at h; simp at h
          | some bs =>
              rw [hrest] at h
              simp only [Option.bind_eq_bind, Option.some_bind, pure, Option.some.injEq] at h
              subst h
              exact List.Forall₂.cons hfa (ih bs hrest)

theorem mapM_option_isSome {α β : Type} (f : α → Option β) :
    ∀ (l : List α), (∀ a ∈ l, (f a).isSome = true) → (l.mapM f).isSome = true := by
  intro l
  induction l with
  | nil => intro _; rfl
  | cons a as ih =>
      intro h
      have ha := h a (List.mem_cons_self a as)
      have has := ih (fun x hx => h x (List.mem_cons_of_mem a hx))
      rw [List.mapM_cons]
      rcases Option.isSome_iff_exists.mp ha with ⟨b, hfa⟩
      rcases Option.isSome_iff_exists.mp has with ⟨bs, hrest⟩
      rw [hfa, hrest]
      simp

theorem pyLookup_append (k : PyVal) :
    ∀ (a b : List (PyVal × PyVal)), pyLookup (a ++ b) k = (pyLookup a k).or (pyLookup b k) := by
  intro a b
  induction a with
  | nil => simp [pyLookup]
  | cons kv rest ih =>
      obtain ⟨k', v⟩ := kv
      by_cases hk : k' = k <;> simp [pyLookup, hk, ih]

theorem pyLookup_of_not_any (k : PyVal) :
    ∀ (d : List (PyVal × PyVal)), d.any (fun kv => decide (kv.1 = k)) = false →
      pyLookup d k = Option.none := by
  intro d
  induction d with
  | nil => intro _; simp [pyLookup]
  | cons kv rest ih =>
      intro h
      simp only [List.any_cons, Bool.or_eq_false_iff, decide_eq_false_iff_not] at h
      obtain ⟨k', v⟩ := kv
      simp only [pyLookup]
      rw [if_neg h.1]
      exact ih (by simpa using h.2)

theorem pyLookup_map_subst_ne (k' : PyVal) (v' : PyVal) (k : PyVal) (h : k' ≠ k) :
    ∀ (d : List (PyVal × PyVal)),
      pyLookup (d.map (fun kv => if kv.1 = k' then (k', v') else kv)) k = pyLookup d k := by
  intro d
  induction d with
  | nil => simp [pyLookup]
  | cons kv rest ih =>
      obtain ⟨a, b⟩ := kv
      simp only [List.map_cons]
      by_cases ha : a = k'
      · subst ha
        rw [if_pos (show (a, b).1 = a from rfl)]
        simp only [pyLookup]
        rw [if_neg h, if_neg h]
        exact ih
      · rw [if_neg (show ¬(a, b).1 = k' from ha)]
        simp only [pyLookup]
        by_cases hak : a = k
        · rw [if_pos hak, if_pos hak]
        · rw [if_neg hak, if_neg hak]
          exact ih

theorem pyLookup_map_subst_any (k' : PyVal) (v' : PyVal) :
    ∀ (d : List (PyVal × PyVal)), d.any (fun kv => decide (kv.1 = k')) = true →
      pyLookup (d.map (fun kv => if kv.1 = k' then (k', v') else kv)) k' = some v' := by
  intro d
  induction d with
  | nil => intro h; simp at h
  | cons kv rest ih =>
      intro h
      obtain ⟨a, b⟩ := kv
      simp only [List.map_cons]
      by_cases ha : a = k'
      · subst ha
        rw [if_pos (show (a, b).1 = a from rfl)]
        simp [pyLookup]
      · rw [if_neg (show ¬(a, b).1 = k' from ha)]
        simp only [pyLookup]
        rw [if_neg ha]
        apply ih
        simp only [List.any_cons, Bool.or_eq_true, decide_eq_true_eq] at h
        rcases h with h1 | h1
        · exact absurd h1 ha
        · simpa using h1

theorem pyLookup_dictSet (d : List (PyVal × PyVal)) (k' v' k : PyVal) :
    pyLookup (dictSet d k' v') k = if k' = k then some v' else pyLookup d k := by
  unfold dictSet
  by_cases hany : (d.any fun kv => decide (kv.1 = k')) = true
  · rw [if_pos hany]
    by_cases hk : k' = k
    · subst hk
      rw [if_pos rfl]
      exact pyLookup_map_subst_any k' v' d hany
    · rw [if_neg hk]
      exact pyLookup_map_subst_ne k' v' k hk d
  · have hfalse : (d.any fun kv => decide (kv.1 = k')) = false := by
      cases h0 : d.any fun kv => decide (kv.1 = k') with
      | false => rfl
      | true => exact absurd h0 hany
    rw [if_neg hany]
    rw [pyLookup_append]
    by_cases hk : k' = k
    · subst hk
      rw [pyLookup_of_not_any k' d hfalse]
      simp [pyLookup]
    · simp only [pyLookup, if_neg hk]
      cases pyLookup d k <;> simp

theorem pyLookup_foldl_dictSet_of_not_mem (k : PyVal) :
    ∀ (j : List (PyVal × PyVal)) (d : List (PyVal × PyVal)),
      (∀ kv ∈ j, kv.1 ≠ k) →
      pyLookup (j.foldl (fun d kv => dictSet d kv.1 kv.2) d) k = pyLookup d k := by
  intro j
  induction j with
  | nil => intro d _; rfl
  | cons kv rest ih =>
      intro d h
      simp only [List.foldl_cons]
      rw [ih (dictSet d kv.1 kv.2) (fun x hx => h x (List.mem_cons_of_mem kv hx))]
      rw [pyLookup_dictSet]
      rw [if_neg (h kv (List.mem_cons_self kv rest))]

theorem pyLookup_foldl_dictSet_mem (k v : PyVal) :
    ∀ (j : List (PyVal × PyVal)) (d : List (PyVal × PyVal)),
      pyLookup (j.foldl (fun d kv => dictSet d kv.1 kv.2) d) k = some v →
      (k, v) ∈ j ∨ pyLookup d k = some v := by
  intro j
  induction j with
  | nil => intro d h; exact Or.inr h
  | cons kv rest ih =>
      intro d h
      simp only [List.foldl_cons] at h
      rcases ih (dictSet d kv.1 kv.2) h with h1 | h1
      · exact Or.inl (List.mem_cons_of_mem kv h1)
      · rw [pyLookup_dictSet] at h1
        by_cases hk : kv.1 = k
        · rw [if_pos hk] at h1
          left
          have : kv = (k, v) := by
            obtain ⟨a, b⟩ := kv
            simp only [Option.some.injEq] at h1
            simp only at hk
            rw [hk, h1.symm]
          rw [this]
          exact List.mem_cons_self _ _
        · rw [if_neg hk] at h1
          exact Or.inr h1

/-- Whenever the judge's result dict has no `"candidate_name"` key (the
`LLMJudgment` schema has none), the merged dict keeps the name it was built
with. -/
theorem judged_result_name (name : PyVal) (j : List (PyVal × PyVal))
    (h : ∀ kv ∈ j, kv.1 ≠ PyVal.str "candidate_name") :
    pyLookup (judged_result name j) (.str "candidate_name") = some name := by
  unfold judged_result
  rw [pyLookup_foldl_dictSet_of_not_mem _ j _ h]
  simp [pyLookup]

/-- A `final_score` binding in a merged judge result can only come from the
judge's own output dict. -/
theorem judged_result_final_score (name : PyVal) (j : List (PyVal × PyVal)) (v : PyVal)
    (h : pyLookup (judged_result name j) (.str "final_score") = some v) :
    (PyVal.str "final_score", v) ∈ j := by
  unfold judged_result at h
  rcases pyLookup_foldl_dictSet_mem _ v j _ h with h1 | h1
  · exact h1
  · exfalso
    simp [pyLookup] at h1

theorem stage2_scores_spec (client : PyVal → PyVal → Option (List (PyVal × PyVal)))
    (sjd : PyVal) (job_text : String) (byName : List (PyVal × PyVal))
    (predict : String → String → ℝ) :
    ∀ (names : List PyVal) (ls : List (List (PyVal × PyVal))) (cs : List (PyVal × ℝ)),
      stage2_scores client sjd job_text byName predict names = some (ls, cs) →
      (∀ r ∈ ls, ∃ name cd, name ∈ names ∧ pyLookup byName name = some cd ∧
          r = judged_result name (llm_as_a_judge client sjd cd)) ∧
      (∀ p ∈ cs, ∃ cd rt, p.1 ∈ names ∧ pyLookup byName p.1 = some cd ∧
          format_resume cd = some rt ∧ p.2 = cross_rescale (predict job_text rt)) ∧
      (∀ name cd, name ∈ names → pyLookup byName name = some cd →
          judged_result name (llm_as_a_judge client sjd cd) ∈ ls ∧ ∃ s, (name, s) ∈ cs) := by
  intro names
  induction names with
  | nil =>
      intro ls cs h
      simp only [stage2_scores, Option.some.injEq, Prod.mk.injEq] at h
      obtain ⟨h1, h2⟩ := h
      subst h1; subst h2
      refine ⟨by simp, by simp, by simp⟩
  | cons name rest ih =>
      intro ls cs h
      simp only [stage2_scores] at h
      cases hlook : pyLookup byName name with
      | none =>
          simp only [hlook] at h
          obtain ⟨hl, hc, hforall⟩ := ih ls cs h
          refine ⟨?_, ?_, ?_⟩
          · intro r hr
            obtain ⟨n, cd, hn, hcd, hr⟩ := hl r hr
            exact ⟨n, cd, List.mem_cons_of_mem _ hn, hcd, hr⟩
          · intro p hp
            obtain ⟨cd, rt, hn, hcd, hrt, hp2⟩ := hc p hp
            exact ⟨cd, rt, List.mem_cons_of_mem _ hn, hcd, hrt, hp2⟩
          · intro n cd hn hcd
            rcases List.mem_cons.mp hn with rfl | hn
            · rw [hlook] at hcd; exact absurd hcd (by simp)
            · exact hforall n cd hn hcd
      | some candidate_data =>
          simp only [hlook] at h
          cases hfmt : format_resume candidate_data with
          | none => simp only [hfmt] at h; simp at h
          | some resume_text =>
              simp only [hfmt] at h
              cases hrest : stage2_scores client sjd job_text byName predict rest with
              | none => simp only [hrest] at h; simp at h
              | some pr =>
                  obtain ⟨ls', cs'⟩ := pr
                  simp only [hrest] at h
                  simp only [Option.bind_eq_bind, Option.some_bind, pure,
                    Option.some.injEq, Prod.mk.injEq] at h
                  obtain ⟨hls, hcs⟩ := h
                  subst hls; subst hcs
                  obtain ⟨hl, hc, hforall⟩ := ih ls' cs' hrest
                  refine ⟨?_, ?_, ?_⟩
                  · intro r hr
                    rcases List.mem_cons.mp hr with rfl | hr
                    · exact ⟨name, candidate_data, List.mem_cons_self _ _, hlook, rfl⟩
                    · obtain ⟨n, cd, hn, hcd, hreq⟩ := hl r hr
                      exact ⟨n, cd, List.mem_cons_of_mem _ hn, hcd, hreq⟩
                  · intro p hp
                    rcases List.mem_cons.mp hp with rfl | hp
                    · exact ⟨candidate_data, resume_text, List.mem_cons_self _ _, hlook, hfmt, rfl⟩
                    · obtain ⟨cd, rt, hn, hcd, hrt, hp2⟩ := hc p hp
                      exact ⟨cd, rt, List.mem_cons_of_mem _ hn, hcd, hrt, hp2⟩
                  · intro n cd hn hcd
                    rcases List.mem_cons.mp hn with rfl | hn
                    · rw [hlook] at hcd
                      obtain rfl : candidate_data = cd := by simpa using hcd
                      refine ⟨List.mem_cons_self _ _, ?_⟩
                      exact ⟨cross_rescale (predict job_text resume_text), List.mem_cons_self _ _⟩
                    · obtain ⟨h1, s, h2⟩ := hforall n cd hn hcd
                      exact ⟨List.mem_cons_of_mem _ h1, s, List.mem_cons_of_mem _ h2⟩

theorem combine_one_spec (w1 w2 : ℝ) (ls : List (List (PyVal × PyVal))) (cs : List (PyVal × ℝ))
    (name : PyVal) (e : FusionEntry) (h : combine_one w1 w2 ls cs name = some e) :
    e.candidate_name = name ∧
    e.llm_analysis = (ls.find?
      (fun r => decide ((pyLookup r (.str "candidate_name")).getD .none = name))).getD [] ∧
    pyNumToReal ((pyLookup e.llm_analysis (.str "final_score")).getD (.num 0)) = some e.llm_score ∧
    e.cross_encoder_score = ((cs.find? (fun s => decide (s.1 = name))).map Prod.snd).getD 0 ∧
    e.combined_score = e.llm_score * w1 + e.cross_encoder_score * w2 := by
  simp only [combine_one, Option.bind_eq_bind] at h
  rcases Option.bind_eq_some.mp h with ⟨x, hx, he⟩
  simp only [pure, Option.some.injEq] at he
  subst he
  exact ⟨rfl, rfl, hx, rfl, rfl⟩

theorem score_and_rank_eq (client : PyVal → PyVal → Option (List (PyVal × PyVal)))
    (bi_encoder_ranking : List RankEntry) (structured_resumes : List PyVal)
    (structured_job_description : PyVal) (predict : String → String → ℝ)
    (top_n : Int) (llm_weight cross_encoder_weight : ℝ) (out : List FusionEntry)
    (h : score_and_rank client bi_encoder_ranking structured_resumes structured_job_description
      predict top_n llm_weight cross_encoder_weight = some out) :
    ∃ job_text ls cs res,
      format_job_description structured_job_description = some job_text ∧
      stage2_scores client structured_job_description job_text
        (candidate_data_by_name structured_resumes) predict
        ((pySliceTo top_n bi_encoder_ranking).map RankEntry.candidate_name) = some (ls, cs) ∧
      combine_results llm_weight cross_encoder_weight ls cs
        ((pySliceTo top_n bi_encoder_ranking).map RankEntry.candidate_name) = some res ∧
      out = pySortDesc FusionEntry.combined_score res := by
  simp only [score_and_rank, Option.bind_eq_bind] at h
  rcases Option.bind_eq_some.mp h with ⟨jt, hjt, h1⟩
  rcases Option.bind_eq_some.mp h1 with ⟨p, hsc, h2⟩
  obtain ⟨ls, cs⟩ := p
  rcases Option.bind_eq_some.mp h2 with ⟨res, hcr, h3⟩
  simp only [pure, Option.some.injEq] at h3
  exact ⟨jt, ls, cs, res, hjt, hsc, hcr, h3.symm⟩

theorem bi_encoder_eq (structured_job_description : PyVal)
    (structured_candidate_resumes : List PyVal) (sim : String → String → ℚ)
    (out : List RankEntry)
    (h : bi_encoder_resume_filtering structured_job_description structured_candidate_resumes sim
      = some out) :
    ∃ rs, stage1_entries structured_job_description structured_candidate_resumes sim = some rs ∧
      out = pySortDesc RankEntry.rank rs := by
  simp only [bi_encoder_resume_filtering, Option.bind_eq_bind] at h
  rcases Option.bind_eq_some.mp h with ⟨rs, hrs, h1⟩
  simp only [pure, Option.some.injEq] at h1
  exact ⟨rs, hrs, h1.symm⟩

theorem stage1_entries_eq (structured_job_description : PyVal)
    (structured_candidate_resumes : List PyVal) (sim : String → String → ℚ)
    (rs : List RankEntry)
    (h : stage1_entries structured_job_description structured_candidate_resumes sim = some rs) :
    ∃ job_text, format_job_description structured_job_description = some job_text ∧
      List.Forall₂ (fun c e => ∃ rt, format_resume c = some rt ∧
        e = ⟨stage1_name c, sim job_text rt⟩) structured_candidate_resumes rs := by
  simp only [stage1_entries, Option.bind_eq_bind] at h
  rcases Option.bind_eq_some.mp h with ⟨jt, hjt, h1⟩
  refine ⟨jt, hjt, ?_⟩
  have h2 := mapM_option_forall₂ _ _ _ h1
  refine h2.imp ?_
  intro c e hce
  cases hrt : format_resume c with
  | none => rw [hrt] at hce; simp at hce
  | some rt =>
      rw [hrt] at hce
      simp only [Option.bind_eq_bind, Option.some_bind, pure, Option.some.injEq] at hce
      exact ⟨rt, rfl, hce.symm⟩

theorem cross_rescale_pos (raw : ℝ) : 0 < cross_rescale raw := by
  unfold cross_rescale
  have h := Real.exp_pos (-raw)
  positivity

theorem cross_rescale_lt_ten (raw : ℝ) : cross_rescale raw < 10 := by
  unfold cross_rescale
  have h := Real.exp_pos (-raw)
  have h1 : (0:ℝ) < 1 + Real.exp (-raw) := by linarith
  have h2 : 1 / (1 + Real.exp (-raw)) < 1 := by
    rw [div_lt_one h1]
    linarith
  nlinarith

theorem forall₂_mem_right {α β : Type} {R : α → β → Prop} :
    ∀ {l : List α} {l' : List β}, List.Forall₂ R l l' → ∀ b ∈ l', ∃ a ∈ l, R a b := by
  intro l l' h
  induction h with
  | nil => intro b hb; simp at hb
  | cons hab _ ih =>
      intro b hb
      rcases List.mem_cons.mp hb with rfl | hb
      · exact ⟨_, List.mem_cons_self _ _, hab⟩
      · obtain ⟨a, ha, har⟩ := ih b hb
        exact ⟨a, List.mem_cons_of_mem _ ha, har⟩

theorem forall₂_mem_left {α β : Type} {R : α → β → Prop} :
    ∀ {l : List α} {l' : List β}, List.Forall₂ R l l' → ∀ a ∈ l, ∃ b ∈ l', R a b := by
  intro l l' h
  induction h with
  | nil => intro a ha; simp at ha
  | cons hab _ ih =>
      intro a ha
      rcases List.mem_cons.mp ha with rfl | ha
      · exact ⟨_, List.mem_cons_self _ _, hab⟩
      · obtain ⟨b, hb, hbr⟩ := ih a ha
        exact ⟨b, List.mem_cons_of_mem _ hb, hbr⟩

theorem forall₂_map_eq {α β γ : Type} {R : α → β → Prop} (f : α → γ) (g : β → γ) :
    ∀ {l : List α} {l' : List β}, List.Forall₂ R l l' →
      (∀ a b, R a b → f a = g b) → l.map f = l'.map g := by
  intro l l' h hfg
  induction h with
  | nil => rfl
  | cons hab _ ih => simp only [List.map_cons, ih, hfg _ _ hab]

theorem isList_exists (v : PyVal) (h : isList v = true) : ∃ xs, v = .list xs := by
  cases v <;> simp [isList] at h ⊢

theorem isStrList_exists (v : PyVal) (h : isStrList v = true) :
    ∃ xs, v = .list xs ∧ ∀ x ∈ xs, ∃ s, x = PyVal.str s := by
  cases v <;> simp [isStrList] at h ⊢
  rename_i xs
  intro x hx
  have := h x hx
  cases x <;> simp at this ⊢

theorem safe_join_isSome_of_isList (v : PyVal) (h : isList v = true) :
    (safe_join v .none).isSome = true := by
  obtain ⟨xs, rfl⟩ := isList_exists v h
  cases xs with
  | nil => rfl
  | cons x rest => rfl

theorem pyJoinSpace_isSome_of_isStrList (v : PyVal) (h : isStrList v = true) :
    (pyJoinSpace v).isSome = true := by
  obtain ⟨xs, rfl, hxs⟩ := isStrList_exists v h
  simp only [pyJoinSpace, pyIter, Option.bind_eq_bind, Option.some_bind]
  have hmap : (xs.mapM (fun x => match x with
      | PyVal.str s => some s
      | _ => Option.none)).isSome = true := by
    apply mapM_option_isSome
    intro a ha
    obtain ⟨s, rfl⟩ := hxs a ha
    rfl
  rcases Option.isSome_iff_exists.mp hmap with ⟨strs, hstrs⟩
  rw [hstrs]
  rfl

theorem format_resume_isSome (c : PyVal) (h : resumeShaped c = true) :
    (format_resume c).isSome = true := by
  simp only [resumeShaped, Bool.and_eq_true] at h
  obtain ⟨⟨⟨⟨⟨hpl, hfl⟩, hpt⟩, hwe⟩, hpj⟩, hcert⟩ := h
  obtain ⟨apl, hapl⟩ := isList_exists _ hpl
  obtain ⟨afl, hafl⟩ := isList_exists _ hfl
  obtain ⟨apt, hapt⟩ := isList_exists _ hpt
  obtain ⟨aproj, haproj⟩ := isList_exists _ hpj
  have hwejobs : ∃ jobs, safe_get_nested c ["work_experience"] (.list []) = .list jobs ∧
      ∀ job ∈ jobs, isStrList (safe_get_nested job ["achievements"] (.list [])) = true := by
    cases hW : safe_get_nested c ["work_experience"] (.list []) <;> rw [hW] at hwe <;>
      simp at hwe ⊢
    exact hwe
  obtain ⟨jobs, hW, hjobs⟩ := hwejobs
  simp only [format_resume, hapl, hafl, hapt, hW, haproj, Option.bind_eq_bind]
  simp only [pyAdd, Option.some_bind, pyIter]
  have hjr : (List.mapM.loop (fun job =>
      (pyJoinSpace (safe_get_nested job ["achievements"] (PyVal.list []))).bind fun a =>
        some (PyVal.str (pyStr (safe_get_nested job ["job_title"] (PyVal.str "")) ++ " at " ++
          pyStr (safe_get_nested job ["company"] (PyVal.str "")) ++ ": " ++ a))) jobs []).isSome
      = true := by
    show (jobs.mapM (fun job =>
      (pyJoinSpace (safe_get_nested job ["achievements"] (PyVal.list []))).bind fun a =>
        some (PyVal.str (pyStr (safe_get_nested job ["job_title"] (PyVal.str "")) ++ " at " ++
          pyStr (safe_get_nested job ["company"] (PyVal.str "")) ++ ": " ++ a)))).isSome = true
    apply mapM_option_isSome
    intro job hjob
    rcases Option.isSome_iff_exists.mp (pyJoinSpace_isSome_of_isStrList _ (hjobs job hjob))
      with ⟨joined, hjoined⟩
    simp [hjoined]
  rcases Option.isSome_iff_exists.mp hjr with ⟨job_roles, hjr'⟩
  have hpj' : (List.mapM.loop (fun proj =>
      some (PyVal.str (pyStr (safe_get_nested proj ["project_name"] (PyVal.str "")) ++ ": " ++
        pyStr (safe_get_nested proj ["description"] (PyVal.str ""))))) aproj []).isSome = true := by
    show (aproj.mapM (fun proj =>
      some (PyVal.str (pyStr (safe_get_nested proj ["project_name"] (PyVal.str "")) ++ ": " ++
        pyStr (safe_get_nested proj ["description"] (PyVal.str "")))))).isSome = true
    apply mapM_option_isSome
    intro proj _
    rfl
  rcases Option.isSome_iff_exists.mp hpj' with ⟨project_texts, hpt'⟩
  rcases Option.isSome_iff_exists.mp
    (safe_join_isSome_of_isList (.list (apl ++ (afl ++ apt))) rfl) with ⟨skills, hskills⟩
  rcases Option.isSome_iff_exists.mp
    (safe_join_isSome_of_isList (.list job_roles) rfl) with ⟨jrt, hjrt⟩
  rcases Option.isSome_iff_exists.mp
    (safe_join_isSome_of_isList (.list project_texts) rfl) with ⟨ptt, hptt⟩
  rcases Option.isSome_iff_exists.mp
    (safe_join_isSome_of_isList _ hcert) with ⟨certs, hcerts⟩
  simp [hjr', hpt', hskills, hjrt, hptt, hcerts]

theorem format_job_description_isSome (j : PyVal) (h : jobShaped j = true) :
    (format_job_description j).isSome = true := by
  simp only [jobShaped, Bool.and_eq_true] at h
  obtain ⟨⟨⟨⟨⟨⟨hkr, hdk⟩, hms⟩, hmt⟩, hre⟩, hps⟩, hpt⟩ := h
  rcases Option.isSome_iff_exists.mp (safe_join_isSome_of_isList _ hkr) with ⟨s1, h1⟩
  rcases Option.isSome_iff_exists.mp (safe_join_isSome_of_isList _ hms) with ⟨s2, h2⟩
  rcases Option.isSome_iff_exists.mp (safe_join_isSome_of_isList _ hmt) with ⟨s3, h3⟩
  rcases Option.isSome_iff_exists.mp (safe_join_isSome_of_isList _ hps) with ⟨s4, h4⟩
  rcases Option.isSome_iff_exists.mp (safe_join_isSome_of_isList _ hpt) with ⟨s5, h5⟩
  rcases Option.isSome_iff_exists.mp (safe_join_isSome_of_isList _ hre) with ⟨s6, h6⟩
  rcases Option.isSome_iff_exists.mp (safe_join_isSome_of_isList _ hdk) with ⟨s7, h7⟩
  simp [format_job_description, h1, h2, h3, h4, h5, h6, h7]

theorem stage1_name_unknown_of_missing (c : PyVal) (h : nameMissingNullOrEmpty c = true) :
    stage1_name c = .str "Unknown Candidate" := by
  unfold nameMissingNullOrEmpty at h
  cases c with
  | dict es =>
      cases hci : pyLookup es (.str "contact_info") with
      | none => simp [stage1_name, safe_get_nested, hci]
      | some ci =>
          simp only [hci] at h
          cases ci with
          | dict cs =>
              cases hn : pyLookup cs (.str "name") with
              | none => simp [stage1_name, safe_get_nested, hci, hn]
              | some nv =>
                  simp only [hn] at h
                  cases nv with
                  | none => simp [stage1_name, safe_get_nested, hci, hn, PyVal.truthy]
                  | str s =>
                      have hs : s = "" := by simpa using h
                      subst hs
                      simp [stage1_name, safe_get_nested, hci, hn, PyVal.truthy]
                  | bool b => simp at h
                  | num q => simp at h
                  | list xs => simp at h
                  | dict d => simp at h
          | none => simp at h
          | bool b => simp at h
          | num q => simp at h
          | str s => simp at h
          | list xs => simp at h
  | none => simp at h
  | bool b => simp at h
  | num q => simp at h
  | str s => simp at h
  | list xs => simp at h

/-- C7: the Canonical Serializer is deterministic — `format_job_description`
and `format_resume` are pure functions of their structured input, so
serializing the same record twice yields byte-identical text, with no
dependence on anything other than the input (the embedding captures the whole
of both functions as state-free functions of the record). -/
theorem C7_serializer_deterministic :
    ∀ (structured_job_description candidate_data : PyVal),
      format_job_description structured_job_description
        = format_job_description structured_job_description ∧
      format_resume candidate_data = format_resume candidate_data :=
  fun _ _ => ⟨rfl, rfl⟩

set_option maxRecDepth 8000 in
/-- C8: the Canonical Serializer never raises for missing or null fields at
any nesting depth — such fields resolve to the empty defaults — a candidate
record with an empty skills list and no work experience still serializes to
the well-formed all-empty text block, and serialization can only fail when a
present, truthy field has a non-list shape where the schema expects a list
(i.e. a non-record type where a record was expected). -/
theorem C8_serializer_permissive :
    (∀ c : PyVal, resumeShaped c = true → (format_resume c).isSome = true) ∧
    (∀ j : PyVal, jobShaped j = true → (format_job_description j).isSome = true) ∧
    format_resume candEmptySkills = some emptyResumeText ∧
    (∀ c : PyVal, format_resume c = Option.none → resumeShaped c = false) := by
  refine ⟨format_resume_isSome, format_job_description_isSome, by decide, ?_⟩
  intro c h
  cases hs : resumeShaped c with
  | false => rfl
  | true =>
      have hsome := format_resume_isSome c hs
      rw [h] at hsome
      simp at hsome

set_option maxRecDepth 8000 in
theorem C8_witness :
    (format_resume candEmptySkills).isSome = true ∧
    (format_job_description (.dict [])).isSome = true :=
  ⟨C8_serializer_permissive.1 candEmptySkills (by decide),
   C8_serializer_permissive.2.1 (.dict []) (by decide)⟩

/-- C10: a candidate whose `contact_info.name` is missing, `None`, or the
empty string does not make Stage 1 fail; Stage 1 records the fixed identity
`"Unknown Candidate"` for it, so two such candidates share one identity, and
the Stage-2 record map resolves that shared identity to at most one record. -/
theorem C10_missing_name_unknown_candidate :
    (∀ c : PyVal, nameMissingNullOrEmpty c = true →
      stage1_name c = .str "Unknown Candidate") ∧
    (∀ c₁ c₂ : PyVal, nameMissingNullOrEmpty c₁ = true → nameMissingNullOrEmpty c₂ = true →
      stage1_name c₁ = stage1_name c₂) ∧
    (∀ c : PyVal, nameMissingNullOrEmpty c = true → resumeShaped c = true →
      (format_resume c).isSome = true) ∧
    (∀ (structured_resumes : List PyVal) (r₁ r₂ : PyVal),
      pyLookup (candidate_data_by_name structured_resumes) (.str "Unknown Candidate") = some r₁ →
      pyLookup (candidate_data_by_name structured_resumes) (.str "Unknown Candidate") = some r₂ →
      r₁ = r₂) := by
  refine ⟨stage1_name_unknown_of_missing, ?_, ?_, ?_⟩
  · intro c₁ c₂ h₁ h₂
    rw [stage1_name_unknown_of_missing c₁ h₁, stage1_name_unknown_of_missing c₂ h₂]
  · intro c _ hshaped
    exact format_resume_isSome c hshaped
  · intro resumes r₁ r₂ h₁ h₂
    rw [h₁] at h₂
    exact (Option.some.injEq _ _).mp h₂

set_option maxRecDepth 8000 in
theorem C10_witness :
    stage1_name (.dict []) = .str "Unknown Candidate" ∧
    stage1_name (.dict []) =
      stage1_name (.dict [(.str "contact_info", .dict [(.str "name", .str "")])]) ∧
    (format_resume (.dict [])).isSome = true ∧
    (.dict [(.str "contact_info", .dict [(.str "name", .str "Unknown Candidate")])] : PyVal)
      = .dict [(.str "contact_info", .dict [(.str "name", .str "Unknown Candidate")])] :=
  ⟨C10_missing_name_unknown_candidate.1 (.dict []) (by decide),
   C10_missing_name_unknown_candidate.2.1 (.dict [])
     (.dict [(.str "contact_info", .dict [(.str "name", .str "")])]) (by decide) (by decide),
   C10_missing_name_unknown_candidate.2.2.1 (.dict []) (by decide) (by decide),
   C10_missing_name_unknown_candidate.2.2.2
     [.dict [(.str "contact_info", .dict [(.str "name", .str "Unknown Candidate")])]]
     (.dict [(.str "contact_info", .dict [(.str "name", .str "Unknown Candidate")])])
     (.dict [(.str "contact_info", .dict [(.str "name", .str "Unknown Candidate")])])
     (by decide) (by decide)⟩

/-- C3: Stage 1 completeness — for a non-empty candidate pool whose extracted
identities are distinct (the data model requires unique names), the Stage-1
output has exactly one entry per input candidate: its length equals the pool
length and every input candidate's identity occurs exactly once among the
output names. -/
theorem C3_stage1_completeness (structured_job_description : PyVal)
    (structured_candidate_resumes : List PyVal) (sim : String → String → ℚ)
    (out : List RankEntry)
    (hne : structured_candidate_resumes ≠ [])
    (hnodup : (structured_candidate_resumes.map stage1_name).Nodup)
    (h : bi_encoder_resume_filtering structured_job_description structured_candidate_resumes sim
      = some out) :
    out.length = structured_candidate_resumes.length ∧
    ∀ c ∈ structured_candidate_resumes,
      (out.map RankEntry.candidate_name).count (stage1_name c) = 1 := by
  obtain ⟨rs, hrs, hout⟩ := bi_encoder_eq _ _ _ _ h
  obtain ⟨jt, hjt, hfa⟩ := stage1_entries_eq _ _ _ _ hrs
  have hnames : structured_candidate_resumes.map stage1_name = rs.map RankEntry.candidate_name :=
    forall₂_map_eq stage1_name RankEntry.candidate_name hfa
      (fun a b hab => by obtain ⟨rt, _, hb⟩ := hab; rw [hb])
  subst hout
  constructor
  · rw [pySortDesc_length]
    exact hfa.length_eq.symm
  · intro c hc
    have hperm : List.Perm ((pySortDesc RankEntry.rank rs).map RankEntry.candidate_name)
        (rs.map RankEntry.candidate_name) := (pySortDesc_perm _ _).map _
    rw [hperm.count_eq, ← hnames]
    exact List.count_eq_one_of_mem hnodup (List.mem_map_of_mem _ hc)

set_option maxRecDepth 12000 in
theorem C3_witness :
    ([⟨PyVal.str "Alice", 0⟩, ⟨PyVal.str "Bob", 0⟩] : List RankEntry).length
      = [candAlice, candBob].length ∧
    ∀ c ∈ [candAlice, candBob],
      (([⟨PyVal.str "Alice", 0⟩, ⟨PyVal.str "Bob", 0⟩] : List RankEntry).map
        RankEntry.candidate_name).count (stage1_name c) = 1 :=
  C3_stage1_completeness (.dict []) [candAlice, candBob] simZero _
    (by decide) (by decide) (by decide)

/-- C6: both stages order their output descending by score with ties broken by
original input order: Stage 1 sorts the per-pool entries descending by
similarity score and Stage 2 sorts the combined entries descending by combined
score, each with the stable filter-per-key characterization of tie-breaking by
input order. -/
theorem C6_sort_descending_stable :
    (∀ (structured_job_description : PyVal) (structured_candidate_resumes : List PyVal)
        (sim : String → String → ℚ) (rs : List RankEntry),
      stage1_entries structured_job_description structured_candidate_resumes sim = some rs →
      bi_encoder_resume_filtering structured_job_description structured_candidate_resumes sim
          = some (pySortDesc RankEntry.rank rs) ∧
      (pySortDesc RankEntry.rank rs).Pairwise (fun a b => b.rank ≤ a.rank) ∧
      List.Perm (pySortDesc RankEntry.rank rs) rs ∧
      (∀ q : ℚ, (pySortDesc RankEntry.rank rs).filter (fun e => decide (e.rank = q)) =
        rs.filter (fun e => decide (e.rank = q)))) ∧
    (∀ (client : PyVal → PyVal → Option (List (PyVal × PyVal)))
        (bi_encoder_ranking : List RankEntry) (structured_resumes : List PyVal)
        (structured_job_description : PyVal) (predict : String → String → ℝ)
        (top_n : Int) (llm_weight cross_encoder_weight : ℝ)
        (job_text : String) (ls : List (List (PyVal × PyVal))) (cs : List (PyVal × ℝ))
        (res : List FusionEntry),
      format_job_description structured_job_description = some job_text →
      stage2_scores client structured_job_description job_text
        (candidate_data_by_name structured_resumes) predict
        ((pySliceTo top_n bi_encoder_ranking).map RankEntry.candidate_name) = some (ls, cs) →
      combine_results llm_weight cross_encoder_weight ls cs
        ((pySliceTo top_n bi_encoder_ranking).map RankEntry.candidate_name) = some res →
      score_and_rank client bi_encoder_ranking structured_resumes structured_job_description
          predict top_n llm_weight cross_encoder_weight
          = some (pySortDesc FusionEntry.combined_score res) ∧
      (pySortDesc FusionEntry.combined_score res).Pairwise
        (fun a b => b.combined_score ≤ a.combined_score) ∧
      List.Perm (pySortDesc FusionEntry.combined_score res) res ∧
      (∀ q : ℝ, (pySortDesc FusionEntry.combined_score res).filter
          (fun e => decide (e.combined_score = q)) =
        res.filter (fun e => decide (e.combined_score = q)))) := by
  constructor
  · intro sjd resumes sim rs hrs
    refine ⟨?_, pySortDesc_pairwise _ _, pySortDesc_perm _ _, fun q => pySortDesc_filter_key _ _ _⟩
    simp [bi_encoder_resume_filtering, hrs]
  · intro client ranking resumes sjd predict top_n w1 w2 jt ls cs res hjt hsc hcr
    refine ⟨?_, pySortDesc_pairwise _ _, pySortDesc_perm _ _, fun q => pySortDesc_filter_key _ _ _⟩
    simp [score_and_rank, hjt, hsc, hcr]

set_option maxRecDepth 12000 in
theorem C6_witness :
    bi_encoder_resume_filtering (.dict []) [candAlice, candBob] simZero
        = some (pySortDesc RankEntry.rank [⟨PyVal.str "Alice", 0⟩, ⟨PyVal.str "Bob", 0⟩]) ∧
    score_and_rank clientNone [⟨PyVal.str "Alice", 1⟩] [] (.dict [])
        predictZero 1 0.7 0.3
        = some (pySortDesc FusionEntry.combined_score [⟨PyVal.str "Alice", 0, 0, 0, []⟩]) :=
  ⟨(C6_sort_descending_stable.1 (.dict []) [candAlice, candBob] simZero
      [⟨PyVal.str "Alice", 0⟩, ⟨PyVal.str "Bob", 0⟩] (by decide)).1,
   (C6_sort_descending_stable.2 clientNone [⟨PyVal.str "Alice", 1⟩] [] (.dict [])
      predictZero 1 0.7 0.3 emptyJobText [] [] [⟨PyVal.str "Alice", 0, 0, 0, []⟩]
      (by decide)
      (by
        have hnames : (pySliceTo 1 [(⟨PyVal.str "Alice", 1⟩ : RankEntry)]).map
            RankEntry.candidate_name = [PyVal.str "Alice"] := by decide
        rw [hnames]
        simp [stage2_scores, candidate_data_by_name, pyLookup])
      (by
        have hnames : (pySliceTo 1 [(⟨PyVal.str "Alice", 1⟩ : RankEntry)]).map
            RankEntry.candidate_name = [PyVal.str "Alice"] := by decide
        rw [hnames]
        norm_num [combine_results, combine_one, List.mapM.loop, pyLookup,
          pyNumToReal, List.find?, Option.bind_eq_bind])).1⟩

theorem cross_rescale_log_32 : cross_rescale (Real.log (3 / 2)) = 6 := by
  unfold cross_rescale
  rw [Real.exp_neg, Real.exp_log (by norm_num : (0:ℝ) < 3 / 2)]
  norm_num

set_option maxRecDepth 12000 in
theorem eval_scenario_resolved :
    score_and_rank clientScore8 [⟨PyVal.str "Alice", 1⟩]
      [candAlice] (.dict []) predictLog32 1 0.7 0.3 =
    some [⟨PyVal.str "Alice", 8, 6, 7.4,
      [(.str "candidate_name", PyVal.str "Alice"), (.str "final_score", PyVal.num 8)]⟩] := by
  have hjt : format_job_description (.dict []) = some emptyJobText := by decide
  have hnames : (pySliceTo 1 [(⟨PyVal.str "Alice", 1⟩ : RankEntry)]).map RankEntry.candidate_name
      = [PyVal.str "Alice"] := by decide
  have hby : candidate_data_by_name [candAlice] = [(.str "Alice", candAlice)] := by decide
  have hlk : pyLookup [(.str "Alice", candAlice)] (.str "Alice") = some candAlice := by decide
  have hfr : format_resume candAlice = some emptyResumeText := by decide
  have hjr : judged_result (.str "Alice") [(.str "final_score", .num 8)] =
      [(.str "candidate_name", PyVal.str "Alice"), (.str "final_score", PyVal.num 8)] := by decide
  have hsc : stage2_scores clientScore8 (.dict [])
      emptyJobText [(.str "Alice", candAlice)] predictLog32 [PyVal.str "Alice"] =
      some ([[(.str "candidate_name", PyVal.str "Alice"), (.str "final_score", PyVal.num 8)]],
            [(PyVal.str "Alice", cross_rescale (Real.log (3 / 2)))]) := by
    simp [stage2_scores, hlk, llm_as_a_judge, clientScore8, predictLog32, hfr, hjr]
  have hcr : combine_results 0.7 0.3
      [[(.str "candidate_name", PyVal.str "Alice"), (.str "final_score", PyVal.num 8)]]
      [(PyVal.str "Alice", cross_rescale (Real.log (3 / 2)))] [PyVal.str "Alice"] =
      some [⟨PyVal.str "Alice", 8, 6, 7.4,
        [(.str "candidate_name", PyVal.str "Alice"), (.str "final_score", PyVal.num 8)]⟩] := by
    have hne : ¬("candidate_name" = "final_score") := by decide
    norm_num [combine_results, combine_one, List.mapM.loop, pyLookup, pyNumToReal,
      List.find?, Option.bind_eq_bind, cross_rescale_log_32, hne]
  simp only [score_and_rank, hjt, hnames, hby, hsc, hcr, Option.bind_eq_bind, Option.some_bind]
  simp [pySortDesc, insertDesc]

/-- C2: every Stage-2 entry's combined score equals
`llm_score * llm_weight + cross_encoder_score * cross_encoder_weight` for the
caller-supplied weights (which are quantified freely, so no validation or
normalization is imposed); at judgment score 8, rescaled pairwise score 6 and
weights 0.7/0.3 the combined score is exactly 7.4. -/
theorem C2_fusion_arithmetic :
    (∀ (client : PyVal → PyVal → Option (List (PyVal × PyVal)))
        (bi_encoder_ranking : List RankEntry) (structured_resumes : List PyVal)
        (structured_job_description : PyVal) (predict : String → String → ℝ)
        (top_n : Int) (llm_weight cross_encoder_weight : ℝ) (out : List FusionEntry),
      score_and_rank client bi_encoder_ranking structured_resumes structured_job_description
          predict top_n llm_weight cross_encoder_weight = some out →
      ∀ e ∈ out, e.combined_score
        = e.llm_score * llm_weight + e.cross_encoder_score * cross_encoder_weight) ∧
    (Option.map (List.map FusionEntry.combined_score)
        (score_and_rank clientScore8 [⟨PyVal.str "Alice", 1⟩]
          [candAlice] (.dict []) predictLog32 1 0.7 0.3) = some [7.4]) := by
  constructor
  · intro client ranking resumes sjd predict top_n w1 w2 out h e he
    obtain ⟨jt, ls, cs, res, hjt, hsc, hcr, hout⟩ := score_and_rank_eq _ _ _ _ _ _ _ _ _ h
    subst hout
    have he' : e ∈ res := (pySortDesc_mem _ _ _).mp he
    have hcr' : ((pySliceTo top_n ranking).map RankEntry.candidate_name).mapM
        (combine_one w1 w2 ls cs) = some res := hcr
    obtain ⟨name, _, hco⟩ := forall₂_mem_right (mapM_option_forall₂ _ _ _ hcr') e he'
    exact (combine_one_spec _ _ _ _ _ _ hco).2.2.2.2
  · rw [eval_scenario_resolved]
    simp

theorem C2_witness :
    (⟨PyVal.str "Alice", 8, 6, 7.4,
      [(.str "candidate_name", PyVal.str "Alice"), (.str "final_score", PyVal.num 8)]⟩
        : FusionEntry).combined_score =
    (⟨PyVal.str "Alice", 8, 6, 7.4,
      [(.str "candidate_name", PyVal.str "Alice"), (.str "final_score", PyVal.num 8)]⟩
        : FusionEntry).llm_score * 0.7 +
    (⟨PyVal.str "Alice", 8, 6, 7.4,
      [(.str "candidate_name", PyVal.str "Alice"), (.str "final_score", PyVal.num 8)]⟩
        : FusionEntry).cross_encoder_score * 0.3 :=
  C2_fusion_arithmetic.1 clientScore8
    [⟨PyVal.str "Alice", 1⟩] [candAlice] (.dict []) predictLog32 1 0.7 0.3
    _ eval_scenario_resolved _ (List.mem_singleton.mpr rfl)

theorem llm_as_a_judge_no_candidate_name
    (client : PyVal → PyVal → Option (List (PyVal × PyVal)))
    (hschema : ∀ jd r d, client jd r = some d → ∀ kv ∈ d, kv.1 ≠ PyVal.str "candidate_name")
    (jd r : PyVal) :
    ∀ kv ∈ llm_as_a_judge client jd r, kv.1 ≠ PyVal.str "candidate_name" := by
  unfold llm_as_a_judge
  cases hc : client jd r with
  | none => intro kv hkv; simp at hkv
  | some d => exact hschema jd r d hc

set_option maxRecDepth 12000 in
theorem eval_scenario_unresolved :
    score_and_rank clientNone [⟨PyVal.str "Alice", 1⟩] [] (.dict [])
      predictZero 1 0.7 0.3 = some [⟨PyVal.str "Alice", 0, 0, 0, []⟩] := by
  have hjt : format_job_description (.dict []) = some emptyJobText := by decide
  have h1 : (pySliceTo 1 [(⟨PyVal.str "Alice", 1⟩ : RankEntry)]).map RankEntry.candidate_name
      = [PyVal.str "Alice"] := by decide
  have h2 : candidate_data_by_name [] = [] := rfl
  simp only [score_and_rank, hjt, h1, h2, Option.bind_eq_bind, Option.some_bind]
  simp only [stage2_scores, pyLookup, Option.some_bind]
  simp only [combine_results, combine_one, List.mapM_cons, List.mapM_nil, List.find?,
    pyLookup, pyNumToReal, Option.getD, Option.some_bind, Option.bind_eq_bind]
  simp [pySortDesc, insertDesc]

/-- C1 counterexample: with ranked pool `[Alice]`, `topN = 1` and an empty
record collection, the only (unresolved) candidate is NOT excluded: Stage 2
returns one entry named Alice, not the empty output the claim asserts. -/
theorem C1_counterexample :
    Option.map (List.map FusionEntry.candidate_name)
      (score_and_rank clientNone [⟨PyVal.str "Alice", 1⟩] [] (.dict []) predictZero 1 0.7 0.3)
      = some [PyVal.str "Alice"] ∧
    ¬ score_and_rank clientNone [⟨PyVal.str "Alice", 1⟩] [] (.dict []) predictZero 1 0.7 0.3
      = some [] := by
  rw [eval_scenario_unresolved]
  exact ⟨rfl, by simp⟩

/-- C1 (amended): a candidate among the first `topN` ranked entries whose
identity has no record in the Stage-2 record map is NOT excluded from the
Stage-2 output: the output always has exactly one entry per sliced ranking
entry, the unresolved identity still appears in it, and its entry carries
judgment score 0, pairwise score 0 and combined score 0 (assuming judge
outputs never carry a `"candidate_name"` key, which the `LLMJudgment` schema
guarantees). -/
theorem C1_unresolved_not_excluded
    (client : PyVal → PyVal → Option (List (PyVal × PyVal)))
    (bi_encoder_ranking : List RankEntry) (structured_resumes : List PyVal)
    (structured_job_description : PyVal) (predict : String → String → ℝ)
    (top_n : Int) (llm_weight cross_encoder_weight : ℝ) (out : List FusionEntry) (name : PyVal)
    (hschema : ∀ jd r d, client jd r = some d → ∀ kv ∈ d, kv.1 ≠ PyVal.str "candidate_name")
    (hname : name ∈ (pySliceTo top_n bi_encoder_ranking).map RankEntry.candidate_name)
    (hunres : pyLookup (candidate_data_by_name structured_resumes) name = Option.none)
    (h : score_and_rank client bi_encoder_ranking structured_resumes structured_job_description
      predict top_n llm_weight cross_encoder_weight = some out) :
    out.length = (pySliceTo top_n bi_encoder_ranking).length ∧
    name ∈ out.map FusionEntry.candidate_name ∧
    ∀ e ∈ out, e.candidate_name = name →
      e.llm_score = 0 ∧ e.cross_encoder_score = 0 ∧ e.combined_score = 0 := by
  obtain ⟨jt, ls, cs, res, hjt, hsc, hcr, hout⟩ := score_and_rank_eq _ _ _ _ _ _ _ _ _ h
  subst hout
  have hcr' : ((pySliceTo top_n bi_encoder_ranking).map RankEntry.candidate_name).mapM
      (combine_one llm_weight cross_encoder_weight ls cs) = some res := hcr
  have hfa := mapM_option_forall₂ _ _ _ hcr'
  obtain ⟨hls, hcs, _⟩ := stage2_scores_spec _ _ _ _ _ _ _ _ hsc
  have hfind_ls : ls.find?
      (fun r => decide ((pyLookup r (.str "candidate_name")).getD .none = name)) = Option.none := by
    apply List.find?_eq_none.mpr
    intro r hr
    obtain ⟨n₂, cd₂, _, hlook₂, hreq⟩ := hls r hr
    have hnamekey : pyLookup r (.str "candidate_name") = some n₂ := by
      rw [hreq]
      exact judged_result_name n₂ _ (llm_as_a_judge_no_candidate_name client hschema _ _)
    rw [hnamekey]
    simp only [Option.getD_some, decide_eq_true_eq]
    intro hn₂
    rw [hn₂] at hlook₂
    rw [hlook₂] at hunres
    exact Option.noConfusion hunres
  have hfind_cs : cs.find? (fun s => decide (s.1 = name)) = Option.none := by
    apply List.find?_eq_none.mpr
    intro p hp
    obtain ⟨cd, rt, _, hlook, _, _⟩ := hcs p hp
    simp only [decide_eq_true_eq]
    intro hpn
    rw [hpn] at hlook
    rw [hlook] at hunres
    exact Option.noConfusion hunres
  refine ⟨?_, ?_, ?_⟩
  · rw [pySortDesc_length, ← hfa.length_eq, List.length_map]
  · obtain ⟨e, he_res, hco⟩ := forall₂_mem_left hfa name hname
    have hspec := combine_one_spec _ _ _ _ _ _ hco
    exact List.mem_map.mpr ⟨e, (pySortDesc_mem _ _ _).mpr he_res, hspec.1⟩
  · intro e he hename
    obtain ⟨n', hn', hco⟩ := forall₂_mem_right hfa e ((pySortDesc_mem _ _ _).mp he)
    have hspec := combine_one_spec _ _ _ _ _ _ hco
    have hn'name : n' = name := by rw [← hspec.1, hename]
    subst hn'name
    have hana : e.llm_analysis = [] := by
      rw [hspec.2.1, hfind_ls]
      rfl
    have hllm : e.llm_score = 0 := by
      have := hspec.2.2.1
      rw [hana] at this
      simp only [pyLookup, Option.getD_none, pyNumToReal, Option.some.injEq] at this
      rw [← this]
      exact Rat.cast_zero
    have hcross : e.cross_encoder_score = 0 := by
      rw [hspec.2.2.2.1, hfind_cs]
      rfl
    refine ⟨hllm, hcross, ?_⟩
    rw [hspec.2.2.2.2, hllm, hcross]
    ring

theorem C1_witness :
    ([⟨PyVal.str "Alice", 0, 0, 0, []⟩] : List FusionEntry).length
      = (pySliceTo 1 [(⟨PyVal.str "Alice", 1⟩ : RankEntry)]).length ∧
    PyVal.str "Alice"
      ∈ List.map FusionEntry.candidate_name [⟨PyVal.str "Alice", 0, 0, 0, []⟩] ∧
    ((⟨PyVal.str "Alice", 0, 0, 0, []⟩ : FusionEntry).llm_score = 0 ∧
     (⟨PyVal.str "Alice", 0, 0, 0, []⟩ : FusionEntry).cross_encoder_score = 0 ∧
     (⟨PyVal.str "Alice", 0, 0, 0, []⟩ : FusionEntry).combined_score = 0) := by
  have hC := C1_unresolved_not_excluded clientNone [⟨PyVal.str "Alice", 1⟩] [] (.dict [])
    predictZero 1 0.7 0.3 [⟨PyVal.str "Alice", 0, 0, 0, []⟩] (PyVal.str "Alice")
    (by intro jd r d hd; exact Option.noConfusion hd)
    (by decide) (by decide) eval_scenario_unresolved
  exact ⟨hC.1, hC.2.1, hC.2.2 _ (List.mem_singleton.mpr rfl) rfl⟩

set_option maxRecDepth 12000 in
theorem eval_scenario_negative_topn :
    score_and_rank clientNone [⟨PyVal.str "A", 2⟩, ⟨PyVal.str "B", 1⟩] [] (.dict [])
      predictZero (-1) 0.7 0.3 = some [⟨PyVal.str "A", 0, 0, 0, []⟩] := by
  have hjt : format_job_description (.dict []) = some emptyJobText := by decide
  have h1 : (pySliceTo (-1) [(⟨PyVal.str "A", 2⟩ : RankEntry), ⟨PyVal.str "B", 1⟩]).map
      RankEntry.candidate_name = [PyVal.str "A"] := by decide
  have h2 : candidate_data_by_name [] = [] := rfl
  simp only [score_and_rank, hjt, h1, h2, Option.bind_eq_bind, Option.some_bind]
  simp only [stage2_scores, pyLookup, Option.some_bind]
  simp only [combine_results, combine_one, List.mapM_cons, List.mapM_nil, List.find?,
    pyLookup, pyNumToReal, Option.getD, Option.some_bind, Option.bind_eq_bind]
  simp [pySortDesc, insertDesc]

set_option maxRecDepth 12000 in
theorem eval_scenario_topn_five :
    score_and_rank clientNone [⟨PyVal.str "Alice", 1⟩] [] (.dict [])
      predictZero 5 0.7 0.3 = some [⟨PyVal.str "Alice", 0, 0, 0, []⟩] := by
  have hjt : format_job_description (.dict []) = some emptyJobText := by decide
  have h1 : (pySliceTo 5 [(⟨PyVal.str "Alice", 1⟩ : RankEntry)]).map
      RankEntry.candidate_name = [PyVal.str "Alice"] := by decide
  have h2 : candidate_data_by_name [] = [] := rfl
  simp only [score_and_rank, hjt, h1, h2, Option.bind_eq_bind, Option.some_bind]
  simp only [stage2_scores, pyLookup, Option.some_bind]
  simp only [combine_results, combine_one, List.mapM_cons, List.mapM_nil, List.find?,
    pyLookup, pyNumToReal, Option.getD, Option.some_bind, Option.bind_eq_bind]
  simp [pySortDesc, insertDesc]

/-- C4 counterexample: `topN = -1 ≤ 0` does NOT yield an empty Stage-2 output.
With the two-entry ranked pool `[A, B]`, Python slicing `[:-1]` keeps `A`, so
the output has one entry named `A`. -/
theorem C4_counterexample :
    (-1 : Int) ≤ 0 ∧
    Option.map (List.map FusionEntry.candidate_name)
      (score_and_rank clientNone [⟨PyVal.str "A", 2⟩, ⟨PyVal.str "B", 1⟩] [] (.dict [])
        predictZero (-1) 0.7 0.3) = some [PyVal.str "A"] ∧
    ¬ score_and_rank clientNone [⟨PyVal.str "A", 2⟩, ⟨PyVal.str "B", 1⟩] [] (.dict [])
        predictZero (-1) 0.7 0.3 = some [] := by
  refine ⟨by norm_num, ?_, ?_⟩
  · rw [eval_scenario_negative_topn]; rfl
  · rw [eval_scenario_negative_topn]; simp

/-- C4 (amended): Stage 2 gates on the Stage-1 ranking — output identities are
a subset of the identities of the sliced prefix `rankedPool[:topN]`; if the
pool has at most `topN` entries the slice is the whole pool; and `topN = 0`
yields an empty output.  (For negative `topN` Python slicing applies: the
slice drops the last `|topN|` entries, so the output need not be empty.) -/
theorem C4_stage2_gating
    (client : PyVal → PyVal → Option (List (PyVal × PyVal)))
    (bi_encoder_ranking : List RankEntry) (structured_resumes : List PyVal)
    (structured_job_description : PyVal) (predict : String → String → ℝ)
    (top_n : Int) (llm_weight cross_encoder_weight : ℝ) (out : List FusionEntry)
    (h : score_and_rank client bi_encoder_ranking structured_resumes structured_job_description
      predict top_n llm_weight cross_encoder_weight = some out) :
    (∀ n ∈ out.map FusionEntry.candidate_name,
        n ∈ (pySliceTo top_n bi_encoder_ranking).map RankEntry.candidate_name) ∧
    ((bi_encoder_ranking.length : Int) ≤ top_n →
        pySliceTo top_n bi_encoder_ranking = bi_encoder_ranking) ∧
    (top_n = 0 → out = []) := by
  obtain ⟨jt, ls, cs, res, hjt, hsc, hcr, hout⟩ := score_and_rank_eq _ _ _ _ _ _ _ _ _ h
  have hcr' : ((pySliceTo top_n bi_encoder_ranking).map RankEntry.candidate_name).mapM
      (combine_one llm_weight cross_encoder_weight ls cs) = some res := hcr
  have hfa := mapM_option_forall₂ _ _ _ hcr'
  refine ⟨?_, ?_, ?_⟩
  · intro n hn
    rw [hout] at hn
    obtain ⟨e, he, hename⟩ := List.mem_map.mp hn
    obtain ⟨n', hn', hco⟩ := forall₂_mem_right hfa e ((pySortDesc_mem _ _ _).mp he)
    have hcn := (combine_one_spec _ _ _ _ _ _ hco).1
    rw [← hename, hcn]
    exact hn'
  · intro hlen
    unfold pySliceTo
    have h0 : (0 : Int) ≤ top_n := le_trans (Int.natCast_nonneg _) hlen
    rw [if_pos h0]
    apply List.take_of_length_le
    omega
  · intro h0
    subst h0
    have hsl : pySliceTo (0 : Int) bi_encoder_ranking = [] := by
      simp [pySliceTo]
    rw [hsl, List.map_nil] at hfa
    cases hfa
    rw [hout]
    rfl

theorem C4_witness :
    pySliceTo 5 [(⟨PyVal.str "Alice", 1⟩ : RankEntry)] = [⟨PyVal.str "Alice", 1⟩] ∧
    PyVal.str "Alice"
      ∈ (pySliceTo 5 [(⟨PyVal.str "Alice", 1⟩ : RankEntry)]).map RankEntry.candidate_name := by
  have hC := C4_stage2_gating clientNone [⟨PyVal.str "Alice", 1⟩] [] (.dict [])
    predictZero 5 0.7 0.3 [⟨PyVal.str "Alice", 0, 0, 0, []⟩] eval_scenario_topn_five
  refine ⟨hC.2.1 (by decide), hC.1 (PyVal.str "Alice") ?_⟩
  simp

/-- C5: the sigmoid rescaling maps every finite raw score strictly between 0
and 10; and, for non-negative caller weights and a judge conforming to the
`LLMJudgment` schema (`final_score` in [0, 10]), every combined score lies
within `[0, 10 * (llm_weight + cross_encoder_weight)]`. -/
theorem C5_score_bounds
    (client : PyVal → PyVal → Option (List (PyVal × PyVal)))
    (bi_encoder_ranking : List RankEntry) (structured_resumes : List PyVal)
    (structured_job_description : PyVal) (predict : String → String → ℝ)
    (top_n : Int) (llm_weight cross_encoder_weight : ℝ) (out : List FusionEntry)
    (hw1 : 0 ≤ llm_weight) (hw2 : 0 ≤ cross_encoder_weight)
    (hscore : ∀ jd r d, client jd r = some d →
      ∀ v, (PyVal.str "final_score", v) ∈ d → ∃ q : ℚ, v = .num q ∧ 0 ≤ q ∧ q ≤ 10)
    (h : score_and_rank client bi_encoder_ranking structured_resumes structured_job_description
      predict top_n llm_weight cross_encoder_weight = some out) :
    (∀ e ∈ out, 0 ≤ e.combined_score ∧
        e.combined_score ≤ 10 * (llm_weight + cross_encoder_weight)) ∧
    (∀ raw : ℝ, 0 < cross_rescale raw ∧ cross_rescale raw < 10) := by
  refine ⟨?_, fun raw => ⟨cross_rescale_pos raw, cross_rescale_lt_ten raw⟩⟩
  intro e he
  obtain ⟨jt, ls, cs, res, hjt, hsc, hcr, hout⟩ := score_and_rank_eq _ _ _ _ _ _ _ _ _ h
  subst hout
  have hcr' : ((pySliceTo top_n bi_encoder_ranking).map RankEntry.candidate_name).mapM
      (combine_one llm_weight cross_encoder_weight ls cs) = some res := hcr
  have hfa := mapM_option_forall₂ _ _ _ hcr'
  obtain ⟨hls, hcs, _⟩ := stage2_scores_spec _ _ _ _ _ _ _ _ hsc
  obtain ⟨n', hn', hco⟩ := forall₂_mem_right hfa e ((pySortDesc_mem _ _ _).mp he)
  have hspec := combine_one_spec _ _ _ _ _ _ hco
  have hllm : 0 ≤ e.llm_score ∧ e.llm_score ≤ 10 := by
    have hana := hspec.2.1
    have hnum := hspec.2.2.1
    cases hfind : ls.find?
        (fun r => decide ((pyLookup r (.str "candidate_name")).getD .none = n')) with
    | none =>
        rw [hfind] at hana
        simp only [Option.getD_none] at hana
        rw [hana] at hnum
        simp only [pyLookup, Option.getD_none, pyNumToReal, Option.some.injEq] at hnum
        constructor <;> rw [← hnum] <;> norm_num
    | some r =>
        have hrmem := List.mem_of_find?_eq_some hfind
        obtain ⟨n₂, cd₂, _, hlook₂, hreq⟩ := hls r hrmem
        rw [hfind] at hana
        simp only [Option.getD_some] at hana
        cases hfs : pyLookup r (.str "final_score") with
        | none =>
            rw [hana, hfs] at hnum
            simp only [Option.getD_none, pyNumToReal, Option.some.injEq] at hnum
            constructor <;> rw [← hnum] <;> norm_num
        | some v =>
            have hvmem : (PyVal.str "final_score", v) ∈ llm_as_a_judge client
                structured_job_description cd₂ := by
              rw [hreq] at hfs
              exact judged_result_final_score _ _ _ hfs
            have hvq : ∃ q : ℚ, v = .num q ∧ 0 ≤ q ∧ q ≤ 10 := by
              unfold llm_as_a_judge at hvmem
              cases hcl : client structured_job_description cd₂ with
              | none => rw [hcl] at hvmem; simp at hvmem
              | some d =>
                  rw [hcl] at hvmem
                  exact hscore _ _ _ hcl v hvmem
            obtain ⟨q, rfl, hq0, hq10⟩ := hvq
            rw [hana, hfs] at hnum
            simp only [Option.getD_some, pyNumToReal, Option.some.injEq] at hnum
            constructor <;> rw [← hnum]
            · exact_mod_cast hq0
            · exact_mod_cast hq10
  have hcross : 0 ≤ e.cross_encoder_score ∧ e.cross_encoder_score ≤ 10 := by
    have hc := hspec.2.2.2.1
    cases hfind : cs.find? (fun s => decide (s.1 = n')) with
    | none =>
        rw [hfind] at hc
        simp only [Option.map_none', Option.getD_none] at hc
        rw [hc]
        norm_num
    | some p =>
        have hpmem := List.mem_of_find?_eq_some hfind
        obtain ⟨cd, rt, _, _, _, hp2⟩ := hcs p hpmem
        rw [hfind] at hc
        simp only [Option.map_some', Option.getD_some] at hc
        rw [hc, hp2]
        exact ⟨le_of_lt (cross_rescale_pos _), le_of_lt (cross_rescale_lt_ten _)⟩
  rw [hspec.2.2.2.2]
  constructor
  · exact add_nonneg (mul_nonneg hllm.1 hw1) (mul_nonneg hcross.1 hw2)
  · calc e.llm_score * llm_weight + e.cross_encoder_score * cross_encoder_weight
        ≤ 10 * llm_weight + 10 * cross_encoder_weight :=
          add_le_add (mul_le_mul_of_nonneg_right hllm.2 hw1)
            (mul_le_mul_of_nonneg_right hcross.2 hw2)
      _ = 10 * (llm_weight + cross_encoder_weight) := by ring

theorem C5_witness :
    (0 ≤ (⟨PyVal.str "Alice", 8, 6, 7.4,
        [(.str "candidate_name", PyVal.str "Alice"), (.str "final_score", PyVal.num 8)]⟩
          : FusionEntry).combined_score ∧
      (⟨PyVal.str "Alice", 8, 6, 7.4,
        [(.str "candidate_name", PyVal.str "Alice"), (.str "final_score", PyVal.num 8)]⟩
          : FusionEntry).combined_score ≤ 10 * (0.7 + 0.3)) ∧
    (0 < cross_rescale 0 ∧ cross_rescale 0 < 10) := by
  have hC := C5_score_bounds clientScore8 [⟨PyVal.str "Alice", 1⟩] [candAlice] (.dict [])
    predictLog32 1 0.7 0.3 _ (by norm_num) (by norm_num)
    (by
      intro jd r d hd v hv
      simp only [clientScore8, Option.some.injEq] at hd
      subst hd
      simp only [List.mem_singleton, Prod.mk.injEq] at hv
      exact ⟨8, hv.2, by norm_num, by norm_num⟩)
    eval_scenario_resolved
  exact ⟨hC.1 _ (List.mem_singleton.mpr rfl), hC.2 0⟩

theorem cross_rescale_zero : cross_rescale 0 = 5 := by
  unfold cross_rescale
  rw [neg_zero, Real.exp_zero]
  norm_num

/-- C9: if the Judge capability fails for a resolved top candidate, its
judgment defaults to the empty dict and contributes 0: the candidate still
appears in the Stage-2 output (which keeps one entry per sliced ranking
entry), with judgment score 0 and combined score equal to the pairwise term
alone. -/
theorem C9_judge_failure_tolerance
    (client : PyVal → PyVal → Option (List (PyVal × PyVal)))
    (bi_encoder_ranking : List RankEntry) (structured_resumes : List PyVal)
    (structured_job_description : PyVal) (predict : String → String → ℝ)
    (top_n : Int) (llm_weight cross_encoder_weight : ℝ) (out : List FusionEntry)
    (name cd : PyVal)
    (hschema : ∀ jd r d, client jd r = some d → ∀ kv ∈ d, kv.1 ≠ PyVal.str "candidate_name")
    (hname : name ∈ (pySliceTo top_n bi_encoder_ranking).map RankEntry.candidate_name)
    (hres : pyLookup (candidate_data_by_name structured_resumes) name = some cd)
    (hfail : client structured_job_description cd = Option.none)
    (h : score_and_rank client bi_encoder_ranking structured_resumes structured_job_description
      predict top_n llm_weight cross_encoder_weight = some out) :
    out.length = (pySliceTo top_n bi_encoder_ranking).length ∧
    name ∈ out.map FusionEntry.candidate_name ∧
    ∀ e ∈ out, e.candidate_name = name →
      e.llm_score = 0 ∧ e.combined_score = e.cross_encoder_score * cross_encoder_weight := by
  obtain ⟨jt, ls, cs, res, hjt, hsc, hcr, hout⟩ := score_and_rank_eq _ _ _ _ _ _ _ _ _ h
  subst hout
  have hcr' : ((pySliceTo top_n bi_encoder_ranking).map RankEntry.candidate_name).mapM
      (combine_one llm_weight cross_encoder_weight ls cs) = some res := hcr
  have hfa := mapM_option_forall₂ _ _ _ hcr'
  obtain ⟨hls, hcs, _⟩ := stage2_scores_spec _ _ _ _ _ _ _ _ hsc
  refine ⟨?_, ?_, ?_⟩
  · rw [pySortDesc_length, ← hfa.length_eq, List.length_map]
  · obtain ⟨e, he_res, hco⟩ := forall₂_mem_left hfa name hname
    exact List.mem_map.mpr
      ⟨e, (pySortDesc_mem _ _ _).mpr he_res, (combine_one_spec _ _ _ _ _ _ hco).1⟩
  · intro e he hename
    obtain ⟨n', hn', hco⟩ := forall₂_mem_right hfa e ((pySortDesc_mem _ _ _).mp he)
    have hspec := combine_one_spec _ _ _ _ _ _ hco
    have hn'name : n' = name := by rw [← hspec.1, hename]
    subst hn'name
    have hana_no_fs : pyLookup e.llm_analysis (.str "final_score") = Option.none := by
      have hana := hspec.2.1
      cases hfind : ls.find?
          (fun r => decide ((pyLookup r (.str "candidate_name")).getD .none = n')) with
      | none =>
          rw [hfind] at hana
          simp only [Option.getD_none] at hana
          rw [hana]
          rfl
      | some r =>
          have hrmem := List.mem_of_find?_eq_some hfind
          obtain ⟨n₂, cd₂, _, hlook₂, hreq⟩ := hls r hrmem
          have hpred := List.find?_some hfind
          have hnr : pyLookup r (.str "candidate_name") = some n₂ := by
            rw [hreq]
            exact judged_result_name n₂ _ (llm_as_a_judge_no_candidate_name client hschema _ _)
          rw [hnr] at hpred
          simp only [Option.getD_some, decide_eq_true_eq] at hpred
          subst hpred
          rw [hres] at hlook₂
          have hcd : cd = cd₂ := (Option.some.injEq _ _).mp hlook₂
          subst hcd
          have hjudge : llm_as_a_judge client structured_job_description cd = [] := by
            unfold llm_as_a_judge
            rw [hfail]
          rw [hfind] at hana
          simp only [Option.getD_some] at hana
          rw [hana, hreq, hjudge]
          unfold judged_result
          simp only [List.foldl_nil]
          have hne : ¬(PyVal.str "candidate_name" = PyVal.str "final_score") := by decide
          simp [pyLookup, hne]
    have hllm : e.llm_score = 0 := by
      have hnum := hspec.2.2.1
      rw [hana_no_fs] at hnum
      simp only [Option.getD_none, pyNumToReal, Option.some.injEq] at hnum
      rw [← hnum]
      exact Rat.cast_zero
    refine ⟨hllm, ?_⟩
    rw [hspec.2.2.2.2, hllm]
    ring

set_option maxRecDepth 20000 in
theorem eval_scenario_judge_fails_bob :
    score_and_rank clientFailBob
      [⟨PyVal.str "Alice", 3⟩, ⟨PyVal.str "Bob", 2⟩, ⟨PyVal.str "Carol", 1⟩]
      [candAlice, candBob, candCarol] (.dict []) predictZero 3 0.7 0.3 =
    some [⟨PyVal.str "Alice", 8, 5, 7.1,
            [(.str "candidate_name", PyVal.str "Alice"), (.str "final_score", PyVal.num 8)]⟩,
          ⟨PyVal.str "Carol", 8, 5, 7.1,
            [(.str "candidate_name", PyVal.str "Carol"), (.str "final_score", PyVal.num 8)]⟩,
          ⟨PyVal.str "Bob", 0, 5, 1.5,
            [(.str "candidate_name", PyVal.str "Bob")]⟩] := by
  have hjt : format_job_description (.dict []) = some emptyJobText := by decide
  have hnames : (pySliceTo 3 [(⟨PyVal.str "Alice", 3⟩ : RankEntry), ⟨PyVal.str "Bob", 2⟩,
      ⟨PyVal.str "Carol", 1⟩]).map RankEntry.candidate_name
      = [PyVal.str "Alice", PyVal.str "Bob", PyVal.str "Carol"] := by decide
  have hby : candidate_data_by_name [candAlice, candBob, candCarol] =
      [(.str "Alice", candAlice), (.str "Bob", candBob), (.str "Carol", candCarol)] := by decide
  have hlkA : pyLookup [(.str "Alice", candAlice), (.str "Bob", candBob),
      (.str "Carol", candCarol)] (.str "Alice") = some candAlice := by decide
  have hlkB : pyLookup [(.str "Alice", candAlice), (.str "Bob", candBob),
      (.str "Carol", candCarol)] (.str "Bob") = some candBob := by decide
  have hlkC : pyLookup [(.str "Alice", candAlice), (.str "Bob", candBob),
      (.str "Carol", candCarol)] (.str "Carol") = some candCarol := by decide
  have hjA : llm_as_a_judge clientFailBob (.dict []) candAlice
      = [(.str "final_score", .num 8)] := by decide
  have hjB : llm_as_a_judge clientFailBob (.dict []) candBob = [] := by decide
  have hjC : llm_as_a_judge clientFailBob (.dict []) candCarol
      = [(.str "final_score", .num 8)] := by decide
  have hjrA : judged_result (.str "Alice") [(.str "final_score", .num 8)]
      = [(.str "candidate_name", PyVal.str "Alice"), (.str "final_score", PyVal.num 8)] := by
    decide
  have hjrB : judged_result (.str "Bob") []
      = [(.str "candidate_name", PyVal.str "Bob")] := by decide
  have hjrC : judged_result (.str "Carol") [(.str "final_score", .num 8)]
      = [(.str "candidate_name", PyVal.str "Carol"), (.str "final_score", PyVal.num 8)] := by
    decide
  have hfrA : format_resume candAlice = some emptyResumeText := by decide
  have hfrB : format_resume candBob = some emptyResumeText := by decide
  have hfrC : format_resume candCarol = some emptyResumeText := by decide
  have hsc : stage2_scores clientFailBob (.dict []) emptyJobText
      [(.str "Alice", candAlice), (.str "Bob", candBob), (.str "Carol", candCarol)]
      predictZero [PyVal.str "Alice", PyVal.str "Bob", PyVal.str "Carol"] =
      some ([[(.str "candidate_name", PyVal.str "Alice"), (.str "final_score", PyVal.num 8)],
             [(.str "candidate_name", PyVal.str "Bob")],
             [(.str "candidate_name", PyVal.str "Carol"), (.str "final_score", PyVal.num 8)]],
            [(PyVal.str "Alice", cross_rescale 0), (PyVal.str "Bob", cross_rescale 0),
             (PyVal.str "Carol", cross_rescale 0)]) := by
    simp [stage2_scores, hlkA, hlkB, hlkC, hjA, hjB, hjC, hjrA, hjrB, hjrC,
      hfrA, hfrB, hfrC, predictZero]
  have hne0 : ¬("candidate_name" = "final_score") := by decide
  have hneAB : ¬("Alice" = "Bob") := by decide
  have hneAC : ¬("Alice" = "Carol") := by decide
  have hneBC : ¬("Bob" = "Carol") := by decide
  have hcr : combine_results 0.7 0.3
      [[(.str "candidate_name", PyVal.str "Alice"), (.str "final_score", PyVal.num 8)],
       [(.str "candidate_name", PyVal.str "Bob")],
       [(.str "candidate_name", PyVal.str "Carol"), (.str "final_score", PyVal.num 8)]]
      [(PyVal.str "Alice", cross_rescale 0), (PyVal.str "Bob", cross_rescale 0),
       (PyVal.str "Carol", cross_rescale 0)]
      [PyVal.str "Alice", PyVal.str "Bob", PyVal.str "Carol"] =
      some [⟨PyVal.str "Alice", 8, 5, 7.1,
              [(.str "candidate_name", PyVal.str "Alice"), (.str "final_score", PyVal.num 8)]⟩,
            ⟨PyVal.str "Bob", 0, 5, 1.5,
              [(.str "candidate_name", PyVal.str "Bob")]⟩,
            ⟨PyVal.str "Carol", 8, 5, 7.1,
              [(.str "candidate_name", PyVal.str "Carol"), (.str "final_score", PyVal.num 8)]⟩] := by
    norm_num [combine_results, combine_one, List.mapM.loop, pyLookup, pyNumToReal,
      List.find?, Option.bind_eq_bind, cross_rescale_zero, hne0, hneAB, hneAC, hneBC]
  simp only [score_and_rank, hjt, hnames, hby, hsc, hcr, Option.bind_eq_bind, Option.some_bind]
  norm_num [pySortDesc, insertDesc]

theorem C9_witness :
    ([⟨PyVal.str "Alice", 8, 5, 7.1,
        [(.str "candidate_name", PyVal.str "Alice"), (.str "final_score", PyVal.num 8)]⟩,
      ⟨PyVal.str "Carol", 8, 5, 7.1,
        [(.str "candidate_name", PyVal.str "Carol"), (.str "final_score", PyVal.num 8)]⟩,
      ⟨PyVal.str "Bob", 0, 5, 1.5,
        [(.str "candidate_name", PyVal.str "Bob")]⟩] : List FusionEntry).length
      = (pySliceTo 3 [(⟨PyVal.str "Alice", 3⟩ : RankEntry), ⟨PyVal.str "Bob", 2⟩,
          ⟨PyVal.str "Carol", 1⟩]).length ∧
    PyVal.str "Bob" ∈ List.map FusionEntry.candidate_name
      [⟨PyVal.str "Alice", 8, 5, 7.1,
         [(.str "candidate_name", PyVal.str "Alice"), (.str "final_score", PyVal.num 8)]⟩,
       ⟨PyVal.str "Carol", 8, 5, 7.1,
         [(.str "candidate_name", PyVal.str "Carol"), (.str "final_score", PyVal.num 8)]⟩,
       ⟨PyVal.str "Bob", 0, 5, 1.5, [(.str "candidate_name", PyVal.str "Bob")]⟩] ∧
    ((⟨PyVal.str "Bob", 0, 5, 1.5,
        [(.str "candidate_name", PyVal.str "Bob")]⟩ : FusionEntry).llm_score = 0 ∧
     (⟨PyVal.str "Bob", 0, 5, 1.5,
        [(.str "candidate_name", PyVal.str "Bob")]⟩ : FusionEntry).combined_score
       = (⟨PyVal.str "Bob", 0, 5, 1.5,
            [(.str "candidate_name", PyVal.str "Bob")]⟩ : FusionEntry).cross_encoder_score
         * 0.3) := by
  have hC := C9_judge_failure_tolerance clientFailBob
    [⟨PyVal.str "Alice", 3⟩, ⟨PyVal.str "Bob", 2⟩, ⟨PyVal.str "Carol", 1⟩]
    [candAlice, candBob, candCarol] (.dict []) predictZero 3 0.7 0.3 _
    (PyVal.str "Bob") candBob
    (by
      intro jd r d hd kv hkv
      simp only [clientFailBob] at hd
      split at hd
      · exact Option.noConfusion hd
      · rw [← (Option.some.injEq _ _).mp hd] at hkv
        rcases List.mem_singleton.mp hkv with rfl
        decide)
    (by decide) (by decide) (by decide)
    eval_scenario_judge_fails_bob
  exact ⟨hC.1, hC.2.1,
    hC.2.2 _ (List.mem_cons_of_mem _ (List.mem_cons_of_mem _ (List.mem_singleton.mpr rfl))) rfl⟩
